import Mathlib

/-!
Shallow embedding of the `fuga` client library (FUGA music-distribution API
client) and proofs about its three engineered subsystems:

* cursor-based lazy pagination (`fetch_list` in `src/fuga/asset.py`,
  `artist.py`, `product.py` — all textually identical up to the resource key);
* chunked file upload (`FUGAClient.upload_file` and
  `FUGAClient._read_in_chunks` in `src/fuga/api_client.py`);
* collection reconciliation ("sync") for contributors, instrument performers
  and publishers (`src/fuga/asset.py`), artist identifiers
  (`src/fuga/artist.py`) and product track sequencing (`src/fuga/product.py`).

Network effects are modelled by passing fetched data / response oracles as
explicit arguments; each remote call a function would make is recorded in an
explicit operation trace.
-/

namespace Fuga

/-- A Python scalar value as it appears in `id`-like fields of FUGA payloads:
either an integer or a string.  (`str()` normalisation of keys is what the
reconcilers rely on, see e.g. `asset.py` line 215/223.) -/
inductive PyVal where
  | pint : Int → PyVal
  | pstr : String → PyVal
deriving DecidableEq, Repr

/-- Python `str()` applied to a scalar id value. -/
def PyVal.toStr : PyVal → String
  | .pint n => toString n
  | .pstr s => s

/-- Python truthiness-based normalisation `x or None` applied to an optional
string field (artist.py line 301: `identifier["identifier"] or None`): the
empty string and `None` collapse to `None`. -/
def pyOrNone : Option String → Option String
  | none => none
  | some s => if s = "" then none else some s

/-! ### Pagination (`fetch_list`, asset.py lines 50-69)

```python
params = {"page": page, "page_size": page_size}
fetched_count = 0
while True:
    response = client.request("GET", endpoint, params=params)
    assets = response.get("asset", [])
    for asset in assets:
        yield asset
        fetched_count += 1
        if limit and fetched_count >= limit:
            return
    total = response.get("total", 0)
    if not assets or fetched_count >= total:
        break
    params["page"] += 1
```

The page endpoint is modelled as a function from a page index to a
`PageResponse` (the list under the resource key plus the reported `total`).
The `while True` loop is given explicit fuel; the theorems below show the
fuel is irrelevant once it is at least the number of items plus one. -/
/-- One page as returned by a FUGA list endpoint: the items under the
resource-specific key and the `total` field. -/
structure PageResponse (α : Type) where
  items : List α
  total : Nat
deriving Repr

/-- Python truthiness of the `limit` argument (`if limit and ...`):
`None` and `0` are falsy. -/
def limitTruthy : Option Nat → Bool
  | none => false
  | some l => l != 0

/-- The numeric value of the `limit` argument (only consulted when truthy). -/
def limitVal : Option Nat → Nat
  | none => 0
  | some l => l

/-- The inner `for asset in assets:` loop body of `fetch_list`: yields items
one by one, incrementing `fetched_count`, and returns early (`Bool` flag
`true`) as soon as `limit` is truthy and `fetched_count >= limit`.
Returns (yielded items, new fetched_count, returned-early flag). -/
def yieldPage (limit : Option Nat) : Nat → List α → List α × Nat × Bool
  | f, [] => ([], f, false)
  | f, a :: rest =>
    if limitTruthy limit && decide (limitVal limit ≤ f + 1) then ([a], f + 1, true)
    else
      let r := yieldPage limit (f + 1) rest
      (a :: r.1, r.2.1, r.2.2)

/-- The `while True:` loop of `fetch_list`, with explicit fuel.  State:
current page index and `fetched_count`.  After the inner loop, the code
re-reads `total` from the current response and stops when the page was empty
or `fetched_count >= total`; otherwise it advances to the next page. -/
def fetchListLoop (fetchPage : Nat → PageResponse α) (limit : Option Nat) :
    Nat → Nat → Nat → List α
  | 0, _, _ => []
  | fuel + 1, page, fetched =>
    let resp := fetchPage page
    let r := yieldPage limit fetched resp.items
    if r.2.2 then r.1
    else if resp.items.isEmpty || decide (resp.total ≤ r.2.1) then r.1
    else r.1 ++ fetchListLoop fetchPage limit fuel (page + 1) r.2.1

/-- `FUGAAsset.fetch_list` (and the identical `FUGAArtist.fetch_list` /
`FUGAProduct.fetch_list`): start at page `page` with `fetched_count = 0`. -/
def fetch_list (fetchPage : Nat → PageResponse α) (page : Nat)
    (limit : Option Nat) (fuel : Nat) : List α :=
  fetchListLoop fetchPage limit fuel page 0

/-- A well-behaved list endpoint serving a fixed catalogue of `items`:
page `p` holds the slice `[p*pageSize, (p+1)*pageSize)` and `total` is the
catalogue size. -/
def pagedServer (items : List α) (pageSize : Nat) (p : Nat) : PageResponse α :=
  ⟨(items.drop (p * pageSize)).take pageSize, items.length⟩

/-- Python `limit or total`. -/
def pyLimitOr (limit : Option Nat) (total : Nat) : Nat :=
  if limitTruthy limit then limitVal limit else total

/-- The number of items the loop actually produces against a well-behaved
server: `limit` capped by the catalogue size when `limit` is truthy. -/
def pyCap (limit : Option Nat) (total : Nat) : Nat :=
  if limitTruthy limit then min (limitVal limit) total else total

/-! ### Chunked upload (`FUGAClient.upload_file`, api_client.py lines 200-272,
and `FUGAClient._read_in_chunks`, lines 300-315)

A file is a list of bytes (modelled as `Nat`s).  `_read_in_chunks` repeatedly
issues `file_object.read(chunk_size)` until the read comes back empty; a
`read(n)` on a position returns the next `min n remaining` bytes, i.e.
`take`/`drop`.  (Note `read(0)` returns the empty bytes object immediately,
so a zero chunk size yields no chunks.) -/
/-- `_read_in_chunks`: split the file into successive `chunkSize`-byte reads,
stopping at the first empty read. -/
def readInChunks (c : Nat) (data : List Nat) : List (List Nat) :=
  if h : data.take c = [] then []
  else data.take c :: readInChunks c (data.drop c)
termination_by data.length
decreasing_by
  simp only [List.length_drop]
  rcases data with _ | ⟨a, rest⟩
  · simp at h
  · rcases Nat.eq_zero_or_pos c with hc | hc
    · subst hc; simp at h
    · simp
      omega

/-- `math.ceil(totalSize / chunkSize)` on naturals. -/
def ceilDiv (s c : Nat) : Nat := (s + c - 1) / c

/-- The metadata `upload_file` attaches to one uploaded chunk: the multipart
fields `partindex`, `partbyteoffset`, `totalparts` and the `Content-Range`
header `bytes rangeStart-rangeEnd/totalSize`, plus the raw chunk bytes. -/
structure ChunkCall where
  partindex : Nat
  partbyteoffset : Nat
  totalparts : Nat
  rangeStart : Nat
  rangeEnd : Nat
  payload : List Nat
deriving DecidableEq, Repr

/-- The chunk-upload loop of `upload_file` (api_client.py lines 232-258),
viewed as the list of chunk calls it emits: `enumerate` pairs each chunk with
its 0-based `part_index`; `offset = part_index * chunk_size`; the header is
`bytes offset..offset+len-1 / total`; `totalparts` is the pre-computed
`ceil(total/chunk_size)`. -/
def chunkCallsGo (c s : Nat) : Nat → List (List Nat) → List ChunkCall
  | _, [] => []
  | i, ch :: rest =>
    { partindex := i, partbyteoffset := i * c, totalparts := ceilDiv s c,
      rangeStart := i * c, rangeEnd := i * c + ch.length - 1, payload := ch }
      :: chunkCallsGo c s (i + 1) rest

/-- All chunk calls emitted by `upload_file` for a file `data` at chunk size
`c`. -/
def chunkCalls (c : Nat) (data : List Nat) : List ChunkCall :=
  chunkCallsGo c data.length 0 (readInChunks c data)

/-- The network calls `upload_file` makes, in order. -/
inductive UploadEvent where
  | start
  | chunkSent (i : Nat)
  | finish
deriving DecidableEq, Repr

/-- The chunk loop with a response oracle `ok`: chunk `i` succeeds iff
`ok i`.  On the first non-200 response the loop raises
(`Exception("Chunk upload failed: ...")`), so later chunks are not attempted;
the `Bool` is `true` iff every chunk succeeded. -/
def runChunks (ok : Nat → Bool) : List ChunkCall → List UploadEvent × Bool
  | [] => ([], true)
  | cc :: rest =>
    if ok cc.partindex then
      let r := runChunks ok rest
      (UploadEvent.chunkSent cc.partindex :: r.1, r.2)
    else ([UploadEvent.chunkSent cc.partindex], false)

/-- `FUGAClient.upload_file` as its trace of calls: one `/upload/start`, the
chunk loop, then — only if every chunk succeeded — one `/upload/finish`.
The `Bool` is `true` iff the function returned normally; `false` means the
chunk-failure exception propagated (there is no partial-success return
value). -/
def upload_file (c : Nat) (data : List Nat) (ok : Nat → Bool) :
    List UploadEvent × Bool :=
  let r := runChunks ok (chunkCalls c data)
  (UploadEvent.start :: (r.1 ++ (if r.2 then [UploadEvent.finish] else [])), r.2)

/-! ### Chunk-size defaults and the `upload_video` call (claim C2)

`FUGAClient.upload_file` (api_client.py line 200) is declared
`def upload_file(self, file_path, data)` — it accepts no `chunk_size`
parameter and hard-codes `chunk_size = 1024 * 1024 * 5` (line 223, 5 MB).
`FUGAAsset.upload_audio` (asset.py line 602) calls
`self.client.upload_file(audio_path, data)`; `FUGAAsset.upload_video`
(asset.py line 620) calls
`self.client.upload_file(video_path, data, chunk_size=16 * 1024 * 1024)`.
In Python, a keyword argument that names no declared parameter raises
`TypeError` when the call is made, before the callee body runs. -/
/-- The non-`self` parameter names of `FUGAClient.upload_file`. -/
def uploadFileParams : List String := ["file_path", "data"]

/-- The chunk size hard-coded inside `upload_file` (5 MB). -/
def uploadFileChunkSize : Nat := 1024 * 1024 * 5

/-- Keyword arguments of the `upload_file` call in `upload_audio`. -/
def uploadAudioCallKwargs : List String := []

/-- Keyword arguments of the `upload_file` call in `upload_video`. -/
def uploadVideoCallKwargs : List String := ["chunk_size"]

/-- The chunk-size value `upload_video` tries to pass (16 MB). -/
def uploadVideoChunkSizeArg : Nat := 16 * 1024 * 1024

/-- Outcome of binding a Python call's keyword arguments against the
callee's parameter list. -/
inductive PyCallOutcome where
  | bound
  | typeError
deriving DecidableEq, Repr

/-- Python call binding: every keyword argument must name a declared
parameter, otherwise the call raises `TypeError`. -/
def bindKwargs (params kwargs : List String) : PyCallOutcome :=
  if kwargs.all params.contains then .bound else .typeError

/-! ### Collection reconciliation

The sync methods fetch the existing relation items, build a lookup keyed by
a composite key, walk the desired list deciding add/update/no-op per item,
and (for the asset relations) remove existing items whose key is absent from
the desired keys.  The initial fetch is passed in as an `Except`; each
remote mutation the method would attempt is recorded in a trace, paired with
whether the call failed (and was caught by the surrounding `try/except`). -/
/-- Outcome of one guarded remote call inside a sync loop: the call either
succeeded or raised and was caught by the `try/except` around it. -/
inductive Outcome where
  | succeeded
  | failedCaught
deriving DecidableEq, Repr

/-- Tag an attempted call with the response of the failure oracle. -/
def outcomeOf (failed : Bool) : Outcome :=
  if failed then .failedCaught else .succeeded

/-! #### Contributors (`FUGAAsset.update_or_create_contributors`,
asset.py lines 186-247) -/
/-- An existing contributor as fetched from FUGA:
`{"id": ..., "person": {"id": ...}, "role": ...}`. -/
structure Contributor where
  id : PyVal
  personId : PyVal
  role : String
deriving DecidableEq, Repr

/-- A desired credit: `{"person": ..., "role": ...}`. -/
structure Credit where
  person : PyVal
  role : String
deriving DecidableEq, Repr

/-- Key of an existing contributor:
`(str(contributor["person"]["id"]), contributor["role"])` (line 215). -/
def contribKey (e : Contributor) : String × String := (e.personId.toStr, e.role)

/-- Key of a desired credit: `(str(credit["person"]), credit["role"])`
(line 223). -/
def creditKey (cr : Credit) : String × String := (cr.person.toStr, cr.role)

/-- A remote mutation attempted by the contributor sync. -/
inductive ContribOp where
  | add : Credit → ContribOp
  | remove : PyVal → ContribOp
deriving DecidableEq, Repr

/-- Step 1 (lines 220-231): for each credit in order, add it unless its key
is in the lookup built once from the existing contributors; a failed add is
caught and the loop continues. -/
def contribAddPhase (existing : List Contributor) (fail : ContribOp → Bool) :
    List Credit → List (ContribOp × Outcome)
  | [] => []
  | cr :: rest =>
    if (existing.map contribKey).contains (creditKey cr) then
      contribAddPhase existing fail rest
    else
      (ContribOp.add cr, outcomeOf (fail (ContribOp.add cr)))
        :: contribAddPhase existing fail rest

/-- Step 2 (lines 233-245): remove every existing contributor whose key is
not among the provided credits' keys; a failed remove is caught and the loop
continues. -/
def contribRemovePhase (credits : List Credit) (fail : ContribOp → Bool) :
    List Contributor → List (ContribOp × Outcome)
  | [] => []
  | e :: rest =>
    if (credits.map creditKey).contains (contribKey e) then
      contribRemovePhase credits fail rest
    else
      (ContribOp.remove e.id, outcomeOf (fail (ContribOp.remove e.id)))
        :: contribRemovePhase credits fail rest

/-- `FUGAAsset.update_or_create_contributors`: on fetch failure the method
logs and returns early, attempting no mutation (it returns `None` on every
path, so the trace is the whole observable behaviour). -/
def update_or_create_contributors
    (fetched : Except String (List Contributor)) (credits : List Credit)
    (fail : ContribOp → Bool) : List (ContribOp × Outcome) :=
  match fetched with
  | .error _ => []
  | .ok existing =>
      contribAddPhase existing fail credits
        ++ contribRemovePhase credits fail existing

/-! #### Instrument performers
(`FUGAAsset.update_or_create_instrument_performers`, asset.py lines 323-404)
— structurally identical to contributors, with key
`(str(person["id"]), instrument)` on the existing side and
`(str(person_id), instrument)` on the desired side. -/
/-- An existing instrument performer:
`{"id": ..., "person": {"id": ...}, "instrument": ...}`. -/
structure InstrumentPerformer where
  id : PyVal
  personId : PyVal
  instrument : String
deriving DecidableEq, Repr

/-- A desired instrument credit: `{"person_id": ..., "instrument": ...}`. -/
structure InstrumentCredit where
  person_id : PyVal
  instrument : String
deriving DecidableEq, Repr

/-- Key of an existing instrument performer (lines 355-361). -/
def instrPerformerKey (e : InstrumentPerformer) : String × String :=
  (e.personId.toStr, e.instrument)

/-- Key of a desired instrument credit (lines 369-372). -/
def instrCreditKey (d : InstrumentCredit) : String × String :=
  (d.person_id.toStr, d.instrument)

/-- A remote mutation attempted by the instrument-performer sync. -/
inductive InstrOp where
  | add : InstrumentCredit → InstrOp
  | remove : PyVal → InstrOp
deriving DecidableEq, Repr

/-- Add phase of the instrument-performer sync (lines 366-384). -/
def instrAddPhase (existing : List InstrumentPerformer)
    (fail : InstrOp → Bool) :
    List InstrumentCredit → List (InstrOp × Outcome)
  | [] => []
  | d :: rest =>
    if (existing.map instrPerformerKey).contains (instrCreditKey d) then
      instrAddPhase existing fail rest
    else
      (InstrOp.add d, outcomeOf (fail (InstrOp.add d)))
        :: instrAddPhase existing fail rest

/-- Remove phase of the instrument-performer sync (lines 386-402). -/
def instrRemovePhase (desired : List InstrumentCredit)
    (fail : InstrOp → Bool) :
    List InstrumentPerformer → List (InstrOp × Outcome)
  | [] => []
  | e :: rest =>
    if (desired.map instrCreditKey).contains (instrPerformerKey e) then
      instrRemovePhase desired fail rest
    else
      (InstrOp.remove e.id, outcomeOf (fail (InstrOp.remove e.id)))
        :: instrRemovePhase desired fail rest

/-- `FUGAAsset.update_or_create_instrument_performers`. -/
def update_or_create_instrument_performers
    (fetched : Except String (List InstrumentPerformer))
    (desired : List InstrumentCredit) (fail : InstrOp → Bool) :
    List (InstrOp × Outcome) :=
  match fetched with
  | .error _ => []
  | .ok existing =>
      instrAddPhase existing fail desired
        ++ instrRemovePhase desired fail existing

/-! #### Publishers (`FUGAAsset.update_or_create_publishers`,
asset.py lines 479-541)

The existing publisher's `publishing_house` field is a nested object
`{"id": ...}`; the desired item's `publishing_house` is a plain id.  The
lookup (line 505) keys existing publishers by
`str(publisher["publishing_house"]["id"])` and the add phase (line 513)
probes it with `str(publisher["publishing_house"])` of the desired item —
consistent.  The REMOVE phase (line 532), however, recomputes the key of an
*existing* publisher as `str(publisher["publishing_house"])`, i.e. the
`str()` of the whole nested dict (`"{'id': ...}"` with braces), which is
compared against the set of desired plain-id strings. -/
/-- The nested `publishing_house` object of an existing publisher (only its
`id` field is read by the sync). -/
structure PubHouseObj where
  id : PyVal
deriving DecidableEq, Repr

/-- An existing publisher entry:
`{"id": ..., "publishing_house": {"id": ...}}`. -/
structure PublisherEntry where
  id : PyVal
  publishingHouse : PubHouseObj
deriving DecidableEq, Repr

/-- A desired publisher item: `{"publishing_house": <plain id>}`. -/
structure PublisherItem where
  publishing_house : PyVal
deriving DecidableEq, Repr

/-- Python `repr()` of a scalar, as it appears inside `str()` of a dict. -/
def pyReprVal : PyVal → String
  | .pint n => toString n
  | .pstr s => "'" ++ s ++ "'"

/-- Python `str(publisher["publishing_house"])` applied to the nested
object: the dict's string form, brace-delimited. -/
def strOfPubHouseObj (h : PubHouseObj) : String :=
  "\x7b'id': " ++ pyReprVal h.id ++ "\x7d"

/-- A remote mutation attempted by the publisher sync. -/
inductive PubOp where
  | add : PublisherItem → PubOp
  | remove : PyVal → PubOp
deriving DecidableEq, Repr

/-- Add phase of the publisher sync (lines 510-525): desired key
`str(publishing_house)` probed against the lookup keyed by
`str(publishing_house["id"])` of existing entries. -/
def pubAddPhase (existing : List PublisherEntry) (fail : PubOp → Bool) :
    List PublisherItem → List (PubOp × Outcome)
  | [] => []
  | d :: rest =>
    if (existing.map (fun e => e.publishingHouse.id.toStr)).contains
        d.publishing_house.toStr then
      pubAddPhase existing fail rest
    else
      (PubOp.add d, outcomeOf (fail (PubOp.add d)))
        :: pubAddPhase existing fail rest

/-- Remove phase of the publisher sync (lines 527-539): the existing entry's
key is recomputed as `str()` of the whole nested dict. -/
def pubRemovePhase (desired : List PublisherItem) (fail : PubOp → Bool) :
    List PublisherEntry → List (PubOp × Outcome)
  | [] => []
  | e :: rest =>
    if (desired.map (fun d => d.publishing_house.toStr)).contains
        (strOfPubHouseObj e.publishingHouse) then
      pubRemovePhase desired fail rest
    else
      (PubOp.remove e.id, outcomeOf (fail (PubOp.remove e.id)))
        :: pubRemovePhase desired fail rest

/-- `FUGAAsset.update_or_create_publishers`. -/
def update_or_create_publishers
    (fetched : Except String (List PublisherEntry))
    (desired : List PublisherItem) (fail : PubOp → Bool) :
    List (PubOp × Outcome) :=
  match fetched with
  | .error _ => []
  | .ok existing =>
      pubAddPhase existing fail desired ++ pubRemovePhase desired fail existing

/-! #### Artist identifiers (`FUGAArtist.update_or_create_identifiers`,
artist.py lines 243-333) -/
/-- An existing artist identifier as fetched from FUGA:
`{"id": ..., "issuingOrganization": {"id": ...}, "identifier": ...,
"newForIssuingOrg": ...}`. -/
structure IdentifierEntry where
  id : PyVal
  issuingOrgId : PyVal
  identifier : Option String
  newForIssuingOrg : Bool
deriving DecidableEq, Repr

/-- A desired identifier item: `{"issuingOrganization": <plain id>,
"identifier": ..., "newForIssuingOrg": ...}`. -/
structure IdentifierItem where
  issuingOrganization : PyVal
  identifier : Option String
  newForIssuingOrg : Bool
deriving DecidableEq, Repr

/-- Key of an existing identifier:
`str(identifier["issuingOrganization"]["id"])` (line 273). -/
def identEntryKey (e : IdentifierEntry) : String := e.issuingOrgId.toStr

/-- Key of a desired identifier: `str(identifier["issuingOrganization"])`
(line 285). -/
def identItemKey (d : IdentifierItem) : String := d.issuingOrganization.toStr

/-- The Python dict comprehension `{key(e): e for e in existing}` followed by
`lookup[key]`: the last entry with the key wins. -/
def lookupLast (existing : List IdentifierEntry) (k : String) :
    Option IdentifierEntry :=
  (existing.filter (fun e => identEntryKey e == k)).getLast?

/-- A remote mutation attempted by the identifier sync.  (The method has no
removal branch: it only creates or updates.) -/
inductive IdentOp where
  | create : IdentifierItem → IdentOp
  | update : PyVal → IdentifierItem → IdentOp
deriving DecidableEq, Repr

/-- The per-item decision of the identifier sync (lines 283-327): key
present and the desired item newly asserts `newForIssuingOrg` → no remote
call (report-back instead); key present and the normalised `identifier`
fields differ → `update`; key present otherwise → no-op; key absent →
`create`. -/
def identDecide (existing : List IdentifierEntry) (d : IdentifierItem) :
    Option IdentOp :=
  match lookupLast existing (identItemKey d) with
  | some e =>
    if d.newForIssuingOrg = true ∧ e.newForIssuingOrg = false then none
    else if pyOrNone d.identifier ≠ pyOrNone e.identifier then
      some (IdentOp.update e.id d)
    else none
  | none => some (IdentOp.create d)

/-- The report-back decision (lines 292-299): when the desired item asserts
`newForIssuingOrg` that the existing entry still records as false, the
*existing* entry is appended to `identifiers_to_update_in_cm`. -/
def identReport (existing : List IdentifierEntry) (d : IdentifierItem) :
    Option IdentifierEntry :=
  match lookupLast existing (identItemKey d) with
  | some e =>
    if d.newForIssuingOrg = true ∧ e.newForIssuingOrg = false then some e
    else none
  | none => none

/-- The main loop of the identifier sync: walks the desired items in order,
collecting the attempted remote calls (each caught on failure) and the
report-back list. -/
def update_or_create_identifiersGo (existing : List IdentifierEntry)
    (fail : IdentOp → Bool) :
    List IdentifierItem → List (IdentOp × Outcome) × List IdentifierEntry
  | [] => ([], [])
  | d :: rest =>
    let r := update_or_create_identifiersGo existing fail rest
    match lookupLast existing (identItemKey d) with
    | some e =>
      if d.newForIssuingOrg = true ∧ e.newForIssuingOrg = false then
        (r.1, e :: r.2)
      else if pyOrNone d.identifier ≠ pyOrNone e.identifier then
        ((IdentOp.update e.id d, outcomeOf (fail (IdentOp.update e.id d)))
          :: r.1, r.2)
      else r
    | none =>
      ((IdentOp.create d, outcomeOf (fail (IdentOp.create d))) :: r.1, r.2)

/-- The dict the identifier sync returns on its normal path. -/
structure IdentResult where
  success : Bool
  identifiers_to_update_in_cm : List IdentifierEntry
deriving DecidableEq, Repr

/-- `FUGAArtist.update_or_create_identifiers`: on fetch failure the method
logs and returns early — the caller receives `None` (modelled as `none`) and
no mutation is attempted; on the normal path it returns
`{"success": True, "identifiers_to_update_in_cm": [...]}`. -/
def update_or_create_identifiers
    (fetched : Except String (List IdentifierEntry))
    (identifiers : List IdentifierItem) (fail : IdentOp → Bool) :
    Option IdentResult × List (IdentOp × Outcome) :=
  match fetched with
  | .error _ => (none, [])
  | .ok existing =>
    let r := update_or_create_identifiersGo existing fail identifiers
    (some { success := true, identifiers_to_update_in_cm := r.2 }, r.1)

/-! #### Track sequencing (`FUGAProduct.update_tracks`,
product.py lines 255-305)

Computes three buckets — tracks to add, to remove, to reposition — then
issues the calls bucket by bucket.  Unlike the other syncs there is **no**
`try/except` around the calls: a failure propagates and aborts the loop. -/
/-- A current product asset (only its `id` is read). -/
structure ProductAsset where
  id : PyVal
deriving DecidableEq, Repr

/-- A desired track: `{"id": ..., "sequence": ...}`. -/
structure TrackSpec where
  id : PyVal
  sequence : Int
deriving DecidableEq, Repr

/-- A remote call of `update_tracks`: `add_asset`, `remove_asset`, or the
dedicated `update_asset_sequence` reposition endpoint
(`PUT .../assets/{id}/position/{n}`). -/
inductive TrackOp where
  | add : PyVal → Int → TrackOp
  | remove : PyVal → TrackOp
  | reposition : PyVal → Int → TrackOp
deriving DecidableEq, Repr

/-- The calls `update_tracks` would issue, in order (lines 277-305):
adds for new ids, removes for ids no longer present, repositions for ids in
both. -/
def update_tracksOps (current : List ProductAsset)
    (newTracks : List TrackSpec) : List TrackOp :=
  ((newTracks.filter
      (fun t => !((current.map ProductAsset.id).contains t.id))).map
    (fun t => TrackOp.add t.id t.sequence))
  ++ ((current.filter
      (fun a => !((newTracks.map TrackSpec.id).contains a.id))).map
    (fun a => TrackOp.remove a.id))
  ++ ((newTracks.filter
      (fun t => (current.map ProductAsset.id).contains t.id)).map
    (fun t => TrackOp.reposition t.id t.sequence))

/-- Attempt the calls in order with no `try/except`: the first failing call
raises, aborting the loop; returns the attempted calls and the raised
exception (`none` = the method returned `None` normally). -/
def attemptAll (fail : TrackOp → Bool) :
    List TrackOp → List TrackOp × Option TrackOp
  | [] => ([], none)
  | op :: rest =>
    if fail op then ([op], some op)
    else
      let r := attemptAll fail rest
      (op :: r.1, r.2)

/-- `FUGAProduct.update_tracks` as (attempted calls, raised exception). -/
def update_tracks (current : List ProductAsset) (newTracks : List TrackSpec)
    (fail : TrackOp → Bool) : List TrackOp × Option TrackOp :=
  attemptAll fail (update_tracksOps current newTracks)

/-! ### Characterisations of the sync traces -/
/-- The remote calls the contributor sync attempts, independent of which of
them fail. -/
def contribOps (existing : List Contributor) (credits : List Credit) :
    List ContribOp :=
  (credits.filter
      (fun cr => !((existing.map contribKey).contains (creditKey cr)))).map
    ContribOp.add
  ++ (existing.filter
      (fun e => !((credits.map creditKey).contains (contribKey e)))).map
    (fun e => ContribOp.remove e.id)

/-- The remote calls the instrument-performer sync attempts. -/
def instrOps (existing : List InstrumentPerformer)
    (desired : List InstrumentCredit) : List InstrOp :=
  (desired.filter
      (fun d => !((existing.map instrPerformerKey).contains
        (instrCreditKey d)))).map InstrOp.add
  ++ (existing.filter
      (fun e => !((desired.map instrCreditKey).contains
        (instrPerformerKey e)))).map (fun e => InstrOp.remove e.id)

/-- The remote calls the publisher sync attempts. -/
def pubOps (existing : List PublisherEntry) (desired : List PublisherItem) :
    List PubOp :=
  (desired.filter
      (fun d => !((existing.map (fun e => e.publishingHouse.id.toStr)).contains
        d.publishing_house.toStr))).map PubOp.add
  ++ (existing.filter
      (fun e => !((desired.map (fun d => d.publishing_house.toStr)).contains
        (strOfPubHouseObj e.publishingHouse)))).map
    (fun e => PubOp.remove e.id)

/-- Is this contributor operation an `add` whose credit has key `k`? -/
def contribIsAddKey (k : String × String) : ContribOp → Bool
  | .add cr => creditKey cr == k
  | _ => false

/-- Is this identifier operation a `create` whose item has key `k`? -/
def identIsCreateKey (k : String) : IdentOp → Bool
  | .create d => identItemKey d == k
  | _ => false

/-! ### Remote-state model for the idempotence claim (C9)

C9's hypothesis is that between the two sync calls the remote collection
changes exactly by the operations the first call applied.  `applyContribOps`
and `applyIdentOps` realise that hypothesis: an add/create appends a record
materialised from the desired payload under a fresh server-assigned id
(`pint fresh0, pint (fresh0+1), ...`), a remove deletes the record with the
given id, an update replaces the mutable payload of the record with the
given id. -/
/-- Apply one contributor mutation to the remote list (with the next fresh
id as extra state). -/
def applyContribOp (st : List Contributor × Nat) (op : ContribOp) :
    List Contributor × Nat :=
  match op with
  | .add cr =>
      (st.1 ++ [{ id := PyVal.pint (Int.ofNat st.2), personId := cr.person,
                  role := cr.role }], st.2 + 1)
  | .remove i => (st.1.filter (fun e => e.id != i), st.2)

/-- The remote contributor list after the listed mutations succeed. -/
def applyContribOps (existing : List Contributor) (ops : List ContribOp)
    (fresh0 : Nat) : List Contributor :=
  (ops.foldl applyContribOp (existing, fresh0)).1

/-- Replace the mutable payload of the entry with id `i`. -/
def setIdentPayload (i : PyVal) (d : IdentifierItem) (e : IdentifierEntry) :
    IdentifierEntry :=
  if e.id = i then
    { e with identifier := d.identifier,
             newForIssuingOrg := d.newForIssuingOrg }
  else e

/-- Apply one identifier mutation to the remote list. -/
def applyIdentOp (st : List IdentifierEntry × Nat) (op : IdentOp) :
    List IdentifierEntry × Nat :=
  match op with
  | .create d =>
      (st.1 ++ [{ id := PyVal.pint (Int.ofNat st.2),
                  issuingOrgId := d.issuingOrganization,
                  identifier := d.identifier,
                  newForIssuingOrg := d.newForIssuingOrg }], st.2 + 1)
  | .update i d => (st.1.map (setIdentPayload i d), st.2)

/-- The remote identifier list after the listed mutations succeed. -/
def applyIdentOps (existing : List IdentifierEntry) (ops : List IdentOp)
    (fresh0 : Nat) : List IdentifierEntry :=
  (ops.foldl applyIdentOp (existing, fresh0)).1

/-- The contributors a run of adds materialises, with their fresh ids. -/
def materializeCredits (n : Nat) : List Credit → List Contributor
  | [] => []
  | cr :: rest =>
      { id := PyVal.pint (Int.ofNat n), personId := cr.person,
        role := cr.role } :: materializeCredits (n + 1) rest

/-- The identifier entries a run of creates materialises, with fresh ids. -/
def materializeItems (n : Nat) : List IdentifierItem → List IdentifierEntry
  | [] => []
  | d :: rest =>
      { id := PyVal.pint (Int.ofNat n), issuingOrgId := d.issuingOrganization,
        identifier := d.identifier, newForIssuingOrg := d.newForIssuingOrg }
        :: materializeItems (n + 1) rest

/-- Apply one operation to a single entry (updates only touch the entry with
the matching id; creates touch nothing). -/
def applyUpdTo (e : IdentifierEntry) (op : IdentOp) : IdentifierEntry :=
  match op with
  | .update i d => setIdentPayload i d e
  | _ => e

/-- The update effects of an operation list on the pre-existing entries. -/
def applyIdentUpdates (l : List IdentifierEntry) (ops : List IdentOp) :
    List IdentifierEntry :=
  ops.foldl (fun acc op => match op with
    | .update i d => acc.map (setIdentPayload i d)
    | _ => acc) l

/-- The created items of an operation list, in order. -/
def identCreates (ops : List IdentOp) : List IdentifierItem :=
  ops.filterMap (fun op => match op with
    | .create d => some d
    | _ => none)

theorem yieldPage_no_limit {α : Type} {limit : Option Nat} (h : limitTruthy limit = false)
    (f : Nat) (xs : List α) : yieldPage limit f xs = (xs, f + xs.length, false) := by
  induction xs generalizing f with
  | nil => simp [yieldPage]
  | cons a rest ih =>
    simp [yieldPage, h, ih (f + 1)]
    omega

theorem yieldPage_limit {α : Type} {limit : Option Nat}
    (ht : limitTruthy limit = true)
    (f : Nat) (xs : List α) (hf : f < limitVal limit) :
    yieldPage limit f xs
      = (xs.take (limitVal limit - f), min (f + xs.length) (limitVal limit),
          decide (limitVal limit ≤ f + xs.length)) := by
  induction xs generalizing f with
  | nil =>
    have h1 : min (f + ([] : List α).length) (limitVal limit) = f := by
      simp; omega
    have h2 : decide (limitVal limit ≤ f + ([] : List α).length) = false := by
      simp; omega
    simp only [yieldPage, h1, h2, List.take_nil]
  | cons a rest ih =>
    by_cases hc : limitVal limit ≤ f + 1
    · have hl : limitVal limit = f + 1 := by omega
      have h2 : decide (limitVal limit ≤ f + (a :: rest).length) = true := by
        simp; omega
      have h3 : min (f + (a :: rest).length) (limitVal limit) = limitVal limit := by
        simp; omega
      have h4 : (a :: rest).take (limitVal limit - f) = [a] := by
        have : limitVal limit - f = 1 := by omega
        rw [this]; simp
      simp [yieldPage, ht, hc, h2, h3, h4]
      omega
    · have ih' := ih (f + 1) (by omega)
      have h4 : (a :: rest).take (limitVal limit - f)
          = a :: rest.take (limitVal limit - (f + 1)) := by
        have h5 : limitVal limit - f = (limitVal limit - (f + 1)) + 1 := by omega
        rw [h5, List.take_succ_cons]
      have h6 : min (f + 1 + rest.length) (limitVal limit)
          = min (f + (a :: rest).length) (limitVal limit) := by
        simp; omega
      have h7 : decide (limitVal limit ≤ f + 1 + rest.length)
          = decide (limitVal limit ≤ f + (a :: rest).length) := by
        by_cases h : limitVal limit ≤ f + 1 + rest.length <;> simp [h] <;> omega
      simp [yieldPage, ht, hc, ih', h4, h6, h7]

theorem fetchListLoop_succ {α : Type} (fetchPage : Nat → PageResponse α)
    (limit : Option Nat) (fuel p f : Nat) (ys : List α) (f' : Nat) (ret : Bool)
    (h : yieldPage limit f (fetchPage p).items = (ys, f', ret)) :
    fetchListLoop fetchPage limit (fuel + 1) p f =
      if ret then ys
      else if (fetchPage p).items.isEmpty || decide ((fetchPage p).total ≤ f') then ys
      else ys ++ fetchListLoop fetchPage limit fuel (p + 1) f' := by
  have hstep : fetchListLoop fetchPage limit (fuel + 1) p f =
      (if (yieldPage limit f (fetchPage p).items).2.2 then
        (yieldPage limit f (fetchPage p).items).1
      else if (fetchPage p).items.isEmpty
          || decide ((fetchPage p).total ≤ (yieldPage limit f (fetchPage p).items).2.1) then
        (yieldPage limit f (fetchPage p).items).1
      else (yieldPage limit f (fetchPage p).items).1
        ++ fetchListLoop fetchPage limit fuel (p + 1)
            (yieldPage limit f (fetchPage p).items).2.1) := rfl
  rw [hstep, h]

theorem fetchListLoop_pagedServer {α : Type} (items : List α) (ps : Nat)
    (limit : Option Nat) (hps : 0 < ps) :
    ∀ (fuel p f : Nat), f = p * ps →
      (limitTruthy limit = true → f < limitVal limit) →
      items.length - f + 1 ≤ fuel →
      fetchListLoop (pagedServer items ps) limit fuel p f
        = (items.drop f).take (pyCap limit items.length - f) := by
  intro fuel
  induction fuel with
  | zero => intro p f _ _ h; omega
  | succ fuel ih =>
    intro p f hf hlim hfuel
    have hitems : (pagedServer items ps p).items = (items.drop f).take ps := by
      simp [pagedServer, hf]
    have htot : (pagedServer items ps p).total = items.length := rfl
    have hpl : ((items.drop f).take ps).length = min ps (items.length - f) := by
      simp
    have hnext : (p + 1) * ps = f + ps := by rw [Nat.succ_mul, hf]
    cases ht : limitTruthy limit with
    | false =>
      have hy : yieldPage limit f ((pagedServer items ps p).items)
          = ((items.drop f).take ps, f + ((items.drop f).take ps).length, false) := by
        rw [hitems]; exact yieldPage_no_limit ht f _
      rw [fetchListLoop_succ _ _ _ _ _ _ _ _ hy, if_neg (by simp), hitems, htot]
      have hcap : pyCap limit items.length = items.length := by simp [pyCap, ht]
      rw [hcap]
      by_cases hemp : (items.drop f).take ps = []
      · have hdf : items.drop f = [] := by
          rcases List.take_eq_nil_iff.1 hemp with h | h
          · omega
          · exact h
        simp [hemp, hdf]
      · have hplpos : 0 < ((items.drop f).take ps).length :=
          List.length_pos.2 hemp
        by_cases hstop : items.length ≤ f + ((items.drop f).take ps).length
        · have hfle : f ≤ items.length := by omega
          have h1 : (items.drop f).take ps = items.drop f :=
            List.take_of_length_le (by simp; omega)
          have h2 : (items.drop f).take (items.length - f) = items.drop f :=
            List.take_of_length_le (by simp)
          rw [if_pos ?stopside, h1, h2]
          case stopside =>
            simp only [Bool.or_eq_true, decide_eq_true_eq]
            right
            exact hstop
        · have hplps : ((items.drop f).take ps).length = ps := by omega
          have hrec := ih (p + 1) (f + ps) hnext.symm
            (fun h => by rw [ht] at h; cases h)
            (by omega)
          have hcap2 : pyCap limit items.length = items.length := by simp [pyCap, ht]
          rw [hcap2] at hrec
          have hjoin : (items.drop f).take ps
                ++ (items.drop (f + ps)).take (items.length - (f + ps))
              = (items.drop f).take (items.length - f) := by
            have hd : items.drop (f + ps) = (items.drop f).drop ps := by
              rw [List.drop_drop, Nat.add_comm]
            have hsum : items.length - f = ps + (items.length - (f + ps)) := by omega
            rw [hd, hsum, List.take_add]
          rw [if_neg ?notstop0, hplps, hrec, hjoin]
          case notstop0 =>
            simp only [Bool.or_eq_true, decide_eq_true_eq, List.isEmpty_iff]
            push_neg
            exact ⟨hemp, by omega⟩
    | true =>
      have hfl : f < limitVal limit := hlim ht
      have hy : yieldPage limit f ((pagedServer items ps p).items)
          = (((items.drop f).take ps).take (limitVal limit - f),
              min (f + ((items.drop f).take ps).length) (limitVal limit),
              decide (limitVal limit ≤ f + ((items.drop f).take ps).length)) := by
        rw [hitems]; exact yieldPage_limit ht f _ hfl
      rw [fetchListLoop_succ _ _ _ _ _ _ _ _ hy]
      have hcap : pyCap limit items.length = min (limitVal limit) items.length := by
        simp [pyCap, ht]
      rw [hcap, hitems, htot]
      by_cases hret : limitVal limit ≤ f + ((items.drop f).take ps).length
      · have h1 : ((items.drop f).take ps).take (limitVal limit - f)
            = (items.drop f).take (min (limitVal limit) items.length - f) := by
          rw [List.take_take]
          congr 1
          omega
        rw [if_pos ?retside, h1]
        case retside =>
          simp only [decide_eq_true_eq]
          exact hret
      · by_cases hemp : (items.drop f).take ps = []
        · have hdf : items.drop f = [] := by
            rcases List.take_eq_nil_iff.1 hemp with h | h
            · omega
            · exact h
          simp [hemp, hdf, hret]
        · have hplpos : 0 < ((items.drop f).take ps).length :=
            List.length_pos.2 hemp
          by_cases hstop : items.length ≤ f + ((items.drop f).take ps).length
          · have hfle : f ≤ items.length := by omega
            have h2 : ((items.drop f).take ps).take (limitVal limit - f)
                = (items.drop f).take ps :=
              List.take_of_length_le (by omega)
            have h3 : (items.drop f).take ps = items.drop f :=
              List.take_of_length_le (by simp; omega)
            have h4 : (items.drop f).take (min (limitVal limit) items.length - f)
                = items.drop f :=
              List.take_of_length_le (by simp; omega)
            rw [if_neg ?retneg1, if_pos ?side, h2, h3, h4]
            case retneg1 =>
              simp only [decide_eq_true_eq]
              exact hret
            case side =>
              simp only [Bool.or_eq_true, decide_eq_true_eq]
              right
              omega
          · have hplps : ((items.drop f).take ps).length = ps := by omega
            have hrec := ih (p + 1) (f + ps) hnext.symm
              (fun _ => by omega)
              (by omega)
            rw [hcap] at hrec
            have hemit : ((items.drop f).take ps).take (limitVal limit - f)
                = (items.drop f).take ps :=
              List.take_of_length_le (by rw [hplps]; omega)
            have hjoin : (items.drop f).take ps
                  ++ (items.drop (f + ps)).take (min (limitVal limit) items.length - (f + ps))
                = (items.drop f).take (min (limitVal limit) items.length - f) := by
              have hd : items.drop (f + ps) = (items.drop f).drop ps := by
                rw [List.drop_drop, Nat.add_comm]
              have hsum : min (limitVal limit) items.length - f
                  = ps + (min (limitVal limit) items.length - (f + ps)) := by omega
              rw [hd, hsum, List.take_add]
            have hminf : (f + ((items.drop f).take ps).length) ⊓ limitVal limit
                = f + ps := by omega
            rw [if_neg ?retneg2, if_neg ?notstop, hemit]
            case retneg2 =>
              simp only [decide_eq_true_eq]
              exact hret
            case notstop =>
              simp only [Bool.or_eq_true, decide_eq_true_eq, List.isEmpty_iff]
              push_neg
              exact ⟨hemp, by omega⟩
            rw [hminf, hrec, hjoin]

theorem take_saturating {α : Type} (l : List α) (n : Nat) :
    l.take (min n l.length) = l.take n := by
  rcases Nat.le_total n l.length with h | h
  · rw [Nat.min_eq_left h]
  · rw [Nat.min_eq_right h, List.take_length, List.take_of_length_le h]

/-- Claim C8: for any total, pageSize and limit, `fetch_list` run against a
well-behaved paged endpoint yields `min(total, limit or total)` items and
terminates (any fuel past `total + 1` gives the same, final answer): a set
limit stops iteration even mid-page, with limit unset (`None` or `0`, both
falsy) it yields exactly `total` items even when `total` is not a multiple of
`pageSize`, and (last conjunct, for any endpoint) a page returning zero items
stops iteration. -/
theorem c8_fetch_list_pagination {α : Type} (items : List α) (ps : Nat)
    (limit : Option Nat) (fuel : Nat) (hps : 0 < ps)
    (hfuel : items.length + 1 ≤ fuel) :
    fetch_list (pagedServer items ps) 0 limit fuel
        = items.take (pyLimitOr limit items.length)
    ∧ (fetch_list (pagedServer items ps) 0 limit fuel).length
        = min (pyLimitOr limit items.length) items.length
    ∧ (∀ (fetchPage : Nat → PageResponse α) (limit2 : Option Nat) (fuel2 p0 : Nat),
        (fetchPage p0).items = [] →
        fetch_list fetchPage p0 limit2 (fuel2 + 1) = []) := by
  have hlim : limitTruthy limit = true → 0 < limitVal limit := by
    intro h
    cases limit with
    | none => simp [limitTruthy] at h
    | some l =>
      simp only [limitTruthy, ne_eq, bne_iff_ne] at h
      simp only [limitVal]
      omega
  have hmain := fetchListLoop_pagedServer items ps limit hps fuel 0 0
    (by simp) hlim (by omega)
  have hcap : items.take (pyCap limit items.length)
      = items.take (pyLimitOr limit items.length) := by
    cases ht : limitTruthy limit with
    | false => simp [pyCap, pyLimitOr, ht]
    | true => simp only [pyCap, pyLimitOr, ht, if_true, take_saturating]
  have h1 : fetch_list (pagedServer items ps) 0 limit fuel
      = items.take (pyLimitOr limit items.length) := by
    rw [fetch_list, hmain, Nat.sub_zero, List.drop_zero, hcap]
  refine ⟨h1, ?_, ?_⟩
  · rw [h1, List.length_take]
  · intro fetchPage limit2 fuel2 p0 hp
    have hy : yieldPage limit2 0 (fetchPage p0).items = ([], 0, false) := by
      rw [hp]; rfl
    rw [fetch_list, fetchListLoop_succ _ _ _ _ _ _ _ _ hy,
      if_neg (by simp), if_pos (by simp [hp])]

/-- Witness for C8 at a concrete instance: a five-item catalogue, page size 2,
limit 3 — the limit stops iteration mid-page after three items. -/
theorem c8_fetch_list_pagination_witness :
    fetch_list (pagedServer ([10, 20, 30, 40, 50] : List Nat) 2) 0 (some 3) 6
      = ([10, 20, 30, 40, 50] : List Nat).take
          (pyLimitOr (some 3) ([10, 20, 30, 40, 50] : List Nat).length) :=
  (c8_fetch_list_pagination [10, 20, 30, 40, 50] 2 (some 3) 6 (by decide)
    (by decide)).1

theorem readInChunks_nil (c : Nat) : readInChunks c [] = [] := by
  rw [readInChunks]
  simp

theorem readInChunks_cons {c : Nat} {data : List Nat} (hc : 0 < c)
    (hd : data ≠ []) :
    readInChunks c data = data.take c :: readInChunks c (data.drop c) := by
  rw [readInChunks]
  rw [dif_neg]
  rw [List.take_eq_nil_iff]
  push_neg
  exact ⟨by omega, hd⟩

theorem ceilDiv_zero (c : Nat) : ceilDiv 0 c = 0 := by
  unfold ceilDiv
  rcases Nat.eq_zero_or_pos c with h | h
  · subst h; rfl
  · rw [Nat.zero_add, Nat.div_eq_of_lt (by omega)]

theorem ceilDiv_step {s c : Nat} (hc : 0 < c) (hs : 0 < s) :
    ceilDiv s c = ceilDiv (s - c) c + 1 := by
  unfold ceilDiv
  rcases Nat.le_total s c with h | h
  · have h0 : s - c = 0 := by omega
    rw [h0]
    have h1 : (s + c - 1) / c = 1 := by
      apply Nat.div_eq_of_lt_le <;> omega
    have h2 : (0 + c - 1) / c = 0 := Nat.div_eq_of_lt (by omega)
    rw [h1, h2]
  · have h3 : s + c - 1 = (s - c + c - 1) + c := by omega
    rw [h3, Nat.add_div_right _ hc]

theorem lt_ceilDiv_mul {c s k : Nat} (hc : 0 < c) (hk : k < ceilDiv s c) :
    k * c < s := by
  unfold ceilDiv at hk
  have h2 : (k + 1) * c ≤ s + c - 1 := (Nat.le_div_iff_mul_le hc).1 hk
  rw [Nat.succ_mul] at h2
  omega

theorem le_ceilDiv_mul {c s : Nat} (hc : 0 < c) : s ≤ ceilDiv s c * c := by
  unfold ceilDiv
  have hdm := Nat.div_add_mod (s + c - 1) c
  have hmlt : (s + c - 1) % c < c := Nat.mod_lt _ hc
  rw [Nat.mul_comm]
  omega

theorem readInChunks_flatten (c : Nat) (hc : 0 < c) (data : List Nat) :
    (readInChunks c data).flatten = data := by
  induction data using readInChunks.induct (c := c) with
  | case1 data h =>
    have hd : data = [] := by
      rcases List.take_eq_nil_iff.1 h with h1 | h1
      · omega
      · exact h1
    subst hd
    rw [readInChunks_nil]
    rfl
  | case2 data h ih =>
    have hd : data ≠ [] := by
      intro he
      subst he
      simp at h
    rw [readInChunks_cons hc hd]
    simp only [List.flatten_cons, ih, List.take_append_drop]

theorem readInChunks_length (c : Nat) (hc : 0 < c) (data : List Nat) :
    (readInChunks c data).length = ceilDiv data.length c := by
  induction data using readInChunks.induct (c := c) with
  | case1 data h =>
    have hd : data = [] := by
      rcases List.take_eq_nil_iff.1 h with h1 | h1
      · omega
      · exact h1
    subst hd
    rw [readInChunks_nil]
    simp [ceilDiv_zero]
  | case2 data h ih =>
    have hd : data ≠ [] := by
      intro he
      subst he
      simp at h
    rw [readInChunks_cons hc hd]
    simp only [List.length_cons, ih, List.length_drop]
    rw [ceilDiv_step hc (List.length_pos.2 hd)]

theorem readInChunks_get (c : Nat) (hc : 0 < c) (data : List Nat) :
    ∀ (k : Nat) (h : k < (readInChunks c data).length),
      (readInChunks c data).get ⟨k, h⟩ = (data.drop (k * c)).take c := by
  induction data using readInChunks.induct (c := c) with
  | case1 data h =>
    intro k hk
    have hd : data = [] := by
      rcases List.take_eq_nil_iff.1 h with h1 | h1
      · omega
      · exact h1
    subst hd
    rw [readInChunks_nil] at hk
    simp at hk
  | case2 data h ih =>
    intro k hk
    have hd : data ≠ [] := by
      intro he
      subst he
      simp at h
    have he : readInChunks c data = data.take c :: readInChunks c (data.drop c) :=
      readInChunks_cons hc hd
    rw [List.get_of_eq he ⟨k, hk⟩]
    cases k with
    | zero => simp
    | succ k =>
      have hk3 : k < (readInChunks c (data.drop c)).length := by
        have hk4 := hk
        rw [he] at hk4
        simpa using hk4
      simp only [Fin.cast_mk, List.get_cons_succ]
      rw [ih k hk3, List.drop_drop]
      rw [(by rw [Nat.succ_mul]; omega : c + k * c = (k + 1) * c)]

theorem chunkCallsGo_length (c s : Nat) (i : Nat) (l : List (List Nat)) :
    (chunkCallsGo c s i l).length = l.length := by
  induction l generalizing i with
  | nil => rfl
  | cons ch rest ih => simp [chunkCallsGo, ih]

theorem chunkCallsGo_get (c s : Nat) (l : List (List Nat)) :
    ∀ (i k : Nat) (h : k < (chunkCallsGo c s i l).length) (h2 : k < l.length),
      (chunkCallsGo c s i l).get ⟨k, h⟩
        = { partindex := i + k, partbyteoffset := (i + k) * c,
            totalparts := ceilDiv s c, rangeStart := (i + k) * c,
            rangeEnd := (i + k) * c + (l.get ⟨k, h2⟩).length - 1,
            payload := l.get ⟨k, h2⟩ } := by
  induction l with
  | nil => intro i k h h2; simp at h2
  | cons ch rest ih =>
    intro i k h h2
    cases k with
    | zero => simp [chunkCallsGo]
    | succ k =>
      have h3 : k < (chunkCallsGo c s (i + 1) rest).length := by
        simpa [chunkCallsGo] using h
      have h4 : k < rest.length := by simpa using h2
      simp only [chunkCallsGo, List.get_cons_succ]
      rw [ih (i + 1) k h3 h4]
      rw [(by omega : i + 1 + k = i + (k + 1))]

theorem chunkCallsGo_map_payload (c s : Nat) :
    ∀ (i : Nat) (l : List (List Nat)),
      (chunkCallsGo c s i l).map ChunkCall.payload = l := by
  intro i l
  induction l generalizing i with
  | nil => rfl
  | cons ch rest ih => simp [chunkCallsGo, ih]

theorem chunkCalls_get (c : Nat) (data : List Nat) (hc : 0 < c) (k : Nat)
    (h : k < (chunkCalls c data).length) :
    (chunkCalls c data).get ⟨k, h⟩
      = { partindex := k, partbyteoffset := k * c,
          totalparts := ceilDiv data.length c, rangeStart := k * c,
          rangeEnd := k * c + ((data.drop (k * c)).take c).length - 1,
          payload := (data.drop (k * c)).take c } := by
  have hcl : (chunkCalls c data).length = ceilDiv data.length c := by
    rw [chunkCalls, chunkCallsGo_length, readInChunks_length c hc]
  have h2 : k < (readInChunks c data).length := by
    rw [readInChunks_length c hc, ← hcl]
    exact h
  have h3 : k < (chunkCallsGo c data.length 0 (readInChunks c data)).length := by
    rw [chunkCallsGo_length]
    exact h2
  have hgo := chunkCallsGo_get c data.length (readInChunks c data) 0 k h3 h2
  rw [readInChunks_get c hc data k h2] at hgo
  simp only [Nat.zero_add] at hgo
  exact hgo

/-- Claim C6: for a file of size `S` uploaded with chunk size `C > 0`, the
emitted chunks carry `totalparts = ceil(S/C)`, their payloads concatenate to
exactly the file, and chunk `k` covers exactly the byte range
`[k*C, min((k+1)*C, S))` — so the `Content-Range` intervals are contiguous,
non-overlapping, cover `[0, S)`, each chunk is non-empty, and the last chunk
may be shorter than `C`.  The final conjuncts give the boundary facts: no
chunks are emitted only for the empty file, and the last chunk ends exactly
at byte `S - 1`. -/
theorem c6_upload_chunk_coverage (c : Nat) (data : List Nat) (hc : 0 < c) :
    ((chunkCalls c data).map ChunkCall.payload).flatten = data
    ∧ (chunkCalls c data).length = ceilDiv data.length c
    ∧ (∀ (k : Nat) (h : k < (chunkCalls c data).length),
        ((chunkCalls c data).get ⟨k, h⟩).partindex = k
        ∧ ((chunkCalls c data).get ⟨k, h⟩).partbyteoffset = k * c
        ∧ ((chunkCalls c data).get ⟨k, h⟩).totalparts = ceilDiv data.length c
        ∧ ((chunkCalls c data).get ⟨k, h⟩).rangeStart = k * c
        ∧ ((chunkCalls c data).get ⟨k, h⟩).rangeEnd + 1
            = min ((k + 1) * c) data.length
        ∧ ((chunkCalls c data).get ⟨k, h⟩).payload.length
            = min ((k + 1) * c) data.length - k * c
        ∧ 0 < ((chunkCalls c data).get ⟨k, h⟩).payload.length)
    ∧ (chunkCalls c data = [] → data = [])
    ∧ (∀ h : 0 < (chunkCalls c data).length,
        ((chunkCalls c data).get
            ⟨(chunkCalls c data).length - 1, by omega⟩).rangeEnd + 1
          = data.length) := by
  have hcl : (chunkCalls c data).length = ceilDiv data.length c := by
    rw [chunkCalls, chunkCallsGo_length, readInChunks_length c hc]
  have hfields : ∀ (k : Nat) (h : k < (chunkCalls c data).length),
      ((chunkCalls c data).get ⟨k, h⟩).partindex = k
      ∧ ((chunkCalls c data).get ⟨k, h⟩).partbyteoffset = k * c
      ∧ ((chunkCalls c data).get ⟨k, h⟩).totalparts = ceilDiv data.length c
      ∧ ((chunkCalls c data).get ⟨k, h⟩).rangeStart = k * c
      ∧ ((chunkCalls c data).get ⟨k, h⟩).rangeEnd + 1
          = min ((k + 1) * c) data.length
      ∧ ((chunkCalls c data).get ⟨k, h⟩).payload.length
          = min ((k + 1) * c) data.length - k * c
      ∧ 0 < ((chunkCalls c data).get ⟨k, h⟩).payload.length := by
    intro k h
    have hK : k * c < data.length := lt_ceilDiv_mul hc (by rw [← hcl]; exact h)
    have hplen : ((data.drop (k * c)).take c).length
        = min c (data.length - k * c) := by simp
    rw [chunkCalls_get c data hc k h]
    refine ⟨rfl, rfl, rfl, rfl, ?_, ?_, ?_⟩
    · simp only [hplen, Nat.succ_mul]
      omega
    · simp only [hplen, Nat.succ_mul]
      omega
    · simp only [hplen]
      omega
  refine ⟨?_, hcl, hfields, ?_, ?_⟩
  · rw [chunkCalls, chunkCallsGo_map_payload, readInChunks_flatten c hc]
  · intro hnil
    by_contra hne
    have hpos : 0 < data.length := List.length_pos.2 hne
    have h0 : (chunkCalls c data).length = 0 := by rw [hnil]; rfl
    rw [hcl, ceilDiv_step hc hpos] at h0
    omega
  · intro h
    have hlast := (hfields ((chunkCalls c data).length - 1) (by omega)).2.2.2.2.1
    rw [hlast]
    have hge := le_ceilDiv_mul (s := data.length) hc
    rw [← hcl] at hge
    rw [(by omega : (chunkCalls c data).length - 1 + 1 = (chunkCalls c data).length)]
    omega

/-- Witness for C6: a 5-byte file with 2-byte chunks concatenates back to the
file (three chunks, the last one short). -/
theorem c6_upload_chunk_coverage_witness :
    ((chunkCalls 2 [7, 8, 9, 10, 11]).map ChunkCall.payload).flatten
      = [7, 8, 9, 10, 11] :=
  (c6_upload_chunk_coverage 2 [7, 8, 9, 10, 11] (by decide)).1

theorem runChunks_fail (ok : Nat → Bool) :
    ∀ (calls : List ChunkCall) (i k : Nat),
      (∀ (m : Nat) (h : m < calls.length), (calls.get ⟨m, h⟩).partindex = i + m) →
      i ≤ k → k < i + calls.length →
      ok k = false → (∀ j, i ≤ j → j < k → ok j = true) →
      runChunks ok calls
        = ((List.range' i (k - i + 1)).map UploadEvent.chunkSent, false) := by
  intro calls
  induction calls with
  | nil =>
    intro i k hidx hik hk hf hb
    simp at hk
    omega
  | cons cc rest ih =>
    intro i k hidx hik hk hf hb
    have hcc : cc.partindex = i := by
      have h0 := hidx 0 (by simp)
      simpa using h0
    by_cases hik2 : i = k
    · subst hik2
      simp only [runChunks, hcc, hf, Bool.false_eq_true, if_false]
      have hr : i - i + 1 = 1 := by omega
      rw [hr, List.range'_one]
      rfl
    · have hoki : ok i = true := hb i le_rfl (by omega)
      have hidx2 : ∀ (m : Nat) (h : m < rest.length),
          (rest.get ⟨m, h⟩).partindex = (i + 1) + m := by
        intro m hm
        have hstep := hidx (m + 1) (by simp; omega)
        simp only [List.get_cons_succ] at hstep
        rw [hstep]
        omega
      have hrest := ih (i + 1) k hidx2 (by omega)
        (by simp at hk; omega) hf (fun j h1 h2 => hb j (by omega) h2)
      simp only [runChunks, hcc, hoki, if_true, hrest]
      have hr : k - i + 1 = (k - (i + 1) + 1) + 1 := by omega
      rw [hr, List.range'_succ]
      rfl

/-- Claim C7: if a chunk `k` (with `k` a valid chunk index and all earlier
chunks succeeding) receives a non-success response, `upload_file` raises —
the `Bool` result is `false`, meaning the exception propagated and there is
no partial-success return value — `/upload/finish` is never called in that
attempt, and no chunk after `k` is sent. -/
theorem c7_upload_failure_no_finalize (c : Nat) (data : List Nat)
    (ok : Nat → Bool) (k : Nat) (hc : 0 < c) (hk : k < ceilDiv data.length c)
    (hf : ok k = false) (hb : ∀ j, j < k → ok j = true) :
    (upload_file c data ok).2 = false
    ∧ UploadEvent.finish ∉ (upload_file c data ok).1
    ∧ ∀ j, UploadEvent.chunkSent j ∈ (upload_file c data ok).1 → j ≤ k := by
  have hcl : (chunkCalls c data).length = ceilDiv data.length c := by
    rw [chunkCalls, chunkCallsGo_length, readInChunks_length c hc]
  have hidx : ∀ (m : Nat) (h : m < (chunkCalls c data).length),
      ((chunkCalls c data).get ⟨m, h⟩).partindex = 0 + m := by
    intro m h
    rw [chunkCalls_get c data hc m h]
    simp
  have hrun := runChunks_fail ok (chunkCalls c data) 0 k hidx (Nat.zero_le k)
    (by omega) hf (fun j _ h2 => hb j h2)
  have hru : upload_file c data ok
      = (UploadEvent.start
          :: ((List.range' 0 (k - 0 + 1)).map UploadEvent.chunkSent ++ []),
         false) := by
    rw [upload_file, hrun]
    rfl
  rw [hru]
  refine ⟨rfl, ?_, ?_⟩
  · intro hmem
    simp only [List.append_nil, List.mem_cons, List.mem_map] at hmem
    rcases hmem with h | ⟨j, _, h⟩ <;> exact UploadEvent.noConfusion h
  · intro j hmem
    simp only [List.append_nil, List.mem_cons, List.mem_map] at hmem
    rcases hmem with h | ⟨m, hm, hinj⟩
    · exact UploadEvent.noConfusion h
    · have : m ∈ List.range' 0 (k + 1) := by simpa using hm
      have hmk : m < k + 1 := by
        have := List.mem_range'_1.1 this
        omega
      cases hinj
      omega

/-- Witness for C7: a 3-chunk upload whose second chunk (index 1) fails —
the run reports failure (the exception propagated, no finalize). -/
theorem c7_upload_failure_no_finalize_witness :
    (upload_file 2 [1, 2, 3, 4, 5] (fun i => i != 1)).2 = false :=
  (c7_upload_failure_no_finalize 2 [1, 2, 3, 4, 5] (fun i => i != 1) 1
    (by decide) (by decide) (by decide) (by decide)).1

theorem contribAddPhase_eq (existing : List Contributor)
    (fail : ContribOp → Bool) (credits : List Credit) :
    contribAddPhase existing fail credits
      = (credits.filter
          (fun cr => !((existing.map contribKey).contains (creditKey cr)))).map
        (fun cr => (ContribOp.add cr, outcomeOf (fail (ContribOp.add cr)))) := by
  induction credits with
  | nil => rfl
  | cons cr rest ih =>
    rw [contribAddPhase, List.filter_cons]
    cases hb : (existing.map contribKey).contains (creditKey cr) <;>
      simp only [hb, ih, Bool.not_false, Bool.not_true, Bool.false_eq_true,
        if_false, if_true, List.map_cons]

theorem contribRemovePhase_eq (credits : List Credit)
    (fail : ContribOp → Bool) (existing : List Contributor) :
    contribRemovePhase credits fail existing
      = (existing.filter
          (fun e => !((credits.map creditKey).contains (contribKey e)))).map
        (fun e => (ContribOp.remove e.id,
          outcomeOf (fail (ContribOp.remove e.id)))) := by
  induction existing with
  | nil => rfl
  | cons e rest ih =>
    rw [contribRemovePhase, List.filter_cons]
    cases hb : (credits.map creditKey).contains (contribKey e) <;>
      simp only [hb, ih, Bool.not_false, Bool.not_true, Bool.false_eq_true,
        if_false, if_true, List.map_cons]

theorem contrib_trace_ops (existing : List Contributor)
    (credits : List Credit) (fail : ContribOp → Bool) :
    (update_or_create_contributors (Except.ok existing) credits fail).map
        Prod.fst
      = contribOps existing credits := by
  simp only [update_or_create_contributors, contribAddPhase_eq,
    contribRemovePhase_eq, contribOps, List.map_append, List.map_map]
  rfl

theorem instrAddPhase_eq (existing : List InstrumentPerformer)
    (fail : InstrOp → Bool) (desired : List InstrumentCredit) :
    instrAddPhase existing fail desired
      = (desired.filter
          (fun d => !((existing.map instrPerformerKey).contains
            (instrCreditKey d)))).map
        (fun d => (InstrOp.add d, outcomeOf (fail (InstrOp.add d)))) := by
  induction desired with
  | nil => rfl
  | cons d rest ih =>
    rw [instrAddPhase, List.filter_cons]
    cases hb : (existing.map instrPerformerKey).contains (instrCreditKey d) <;>
      simp only [hb, ih, Bool.not_false, Bool.not_true, Bool.false_eq_true,
        if_false, if_true, List.map_cons]

theorem instrRemovePhase_eq (desired : List InstrumentCredit)
    (fail : InstrOp → Bool) (existing : List InstrumentPerformer) :
    instrRemovePhase desired fail existing
      = (existing.filter
          (fun e => !((desired.map instrCreditKey).contains
            (instrPerformerKey e)))).map
        (fun e => (InstrOp.remove e.id,
          outcomeOf (fail (InstrOp.remove e.id)))) := by
  induction existing with
  | nil => rfl
  | cons e rest ih =>
    rw [instrRemovePhase, List.filter_cons]
    cases hb : (desired.map instrCreditKey).contains (instrPerformerKey e) <;>
      simp only [hb, ih, Bool.not_false, Bool.not_true, Bool.false_eq_true,
        if_false, if_true, List.map_cons]

theorem instr_trace_ops (existing : List InstrumentPerformer)
    (desired : List InstrumentCredit) (fail : InstrOp → Bool) :
    (update_or_create_instrument_performers (Except.ok existing) desired
        fail).map Prod.fst
      = instrOps existing desired := by
  simp only [update_or_create_instrument_performers, instrAddPhase_eq,
    instrRemovePhase_eq, instrOps, List.map_append, List.map_map]
  rfl

theorem pubAddPhase_eq (existing : List PublisherEntry)
    (fail : PubOp → Bool) (desired : List PublisherItem) :
    pubAddPhase existing fail desired
      = (desired.filter
          (fun d => !((existing.map
            (fun e => e.publishingHouse.id.toStr)).contains
              d.publishing_house.toStr))).map
        (fun d => (PubOp.add d, outcomeOf (fail (PubOp.add d)))) := by
  induction desired with
  | nil => rfl
  | cons d rest ih =>
    rw [pubAddPhase, List.filter_cons]
    cases hb : (existing.map (fun e => e.publishingHouse.id.toStr)).contains
        d.publishing_house.toStr <;>
      simp only [hb, ih, Bool.not_false, Bool.not_true, Bool.false_eq_true,
        if_false, if_true, List.map_cons]

theorem pubRemovePhase_eq (desired : List PublisherItem)
    (fail : PubOp → Bool) (existing : List PublisherEntry) :
    pubRemovePhase desired fail existing
      = (existing.filter
          (fun e => !((desired.map
            (fun d => d.publishing_house.toStr)).contains
              (strOfPubHouseObj e.publishingHouse)))).map
        (fun e => (PubOp.remove e.id,
          outcomeOf (fail (PubOp.remove e.id)))) := by
  induction existing with
  | nil => rfl
  | cons e rest ih =>
    rw [pubRemovePhase, List.filter_cons]
    cases hb : (desired.map (fun d => d.publishing_house.toStr)).contains
        (strOfPubHouseObj e.publishingHouse) <;>
      simp only [hb, ih, Bool.not_false, Bool.not_true, Bool.false_eq_true,
        if_false, if_true, List.map_cons]

theorem pub_trace_ops (existing : List PublisherEntry)
    (desired : List PublisherItem) (fail : PubOp → Bool) :
    (update_or_create_publishers (Except.ok existing) desired fail).map
        Prod.fst
      = pubOps existing desired := by
  simp only [update_or_create_publishers, pubAddPhase_eq, pubRemovePhase_eq,
    pubOps, List.map_append, List.map_map]
  rfl

theorem identGo_spec (existing : List IdentifierEntry)
    (fail : IdentOp → Bool) (desired : List IdentifierItem) :
    (update_or_create_identifiersGo existing fail desired).1
      = desired.filterMap (fun d => (identDecide existing d).map
          (fun op => (op, outcomeOf (fail op))))
    ∧ (update_or_create_identifiersGo existing fail desired).2
      = desired.filterMap (identReport existing) := by
  induction desired with
  | nil => exact ⟨rfl, rfl⟩
  | cons d rest ih =>
    obtain ⟨ih1, ih2⟩ := ih
    simp only [update_or_create_identifiersGo]
    cases hl : lookupLast existing (identItemKey d) with
    | none =>
      simp [identDecide, identReport, hl, ih1, ih2, List.filterMap_cons]
    | some e =>
      by_cases h1 : d.newForIssuingOrg = true ∧ e.newForIssuingOrg = false
      · simp [identDecide, identReport, hl, h1, ih1, ih2, List.filterMap_cons]
      · by_cases h2 : pyOrNone d.identifier ≠ pyOrNone e.identifier
        · simp [identDecide, identReport, hl, h1, h2, ih1, ih2,
            List.filterMap_cons]
        · simp [identDecide, identReport, hl, h1, h2, ih1, ih2,
            List.filterMap_cons]

theorem identGo_ops (existing : List IdentifierEntry)
    (fail : IdentOp → Bool) (desired : List IdentifierItem) :
    (update_or_create_identifiersGo existing fail desired).1.map Prod.fst
      = desired.filterMap (identDecide existing) := by
  rw [(identGo_spec existing fail desired).1, List.map_filterMap]
  apply List.filterMap_congr
  intro d _
  cases identDecide existing d <;> rfl

/-- Claim C2 (code bug): the chunk size is meant to differ per asset type —
`upload_video` passes `chunk_size=16*1024*1024` while audio uses the 5 MB
default — but `upload_file` declares no `chunk_size` parameter and hard-codes
5 MB, so the audio call binds (and uploads with 5 MB chunks) while every
`upload_video` call raises `TypeError` before any upload work happens. -/
theorem c2_upload_video_chunk_size_type_error :
    bindKwargs uploadFileParams uploadVideoCallKwargs = PyCallOutcome.typeError
    ∧ bindKwargs uploadFileParams uploadAudioCallKwargs = PyCallOutcome.bound
    ∧ uploadFileChunkSize = 5 * 1024 * 1024
    ∧ uploadVideoChunkSizeArg = 16 * 1024 * 1024
    ∧ uploadFileChunkSize < uploadVideoChunkSizeArg := by
  refine ⟨by decide, by decide, by decide, by decide, by decide⟩

/-- Counterexample to claim C4: when the initial fetch of existing
identifiers fails, `update_or_create_identifiers` catches the exception,
logs, and returns `None` — the caller receives neither a result carrying a
success flag nor a raised error (the result slot is `none`), i.e. a silent
abort.  (The abort itself is real: the trace is empty.) -/
theorem c4_fetch_failure_silent_cex :
    update_or_create_identifiers (Except.error "HTTP 500") []
        (fun _ => false)
      = (none, []) := rfl

/-- Claim C4 as amended: if the initial fetch fails, every reconciliation
aborts with no add, update or remove attempted — but the failure is only
logged, not reported: the sync functions return `None` (no success flag, no
raised error). -/
theorem c4_fetch_failure_aborts_amended :
    (∀ (msg : String) (credits : List Credit) (fail : ContribOp → Bool),
      update_or_create_contributors (Except.error msg) credits fail = [])
    ∧ (∀ (msg : String) (desired : List InstrumentCredit)
        (fail : InstrOp → Bool),
      update_or_create_instrument_performers (Except.error msg) desired fail
        = [])
    ∧ (∀ (msg : String) (desired : List PublisherItem) (fail : PubOp → Bool),
      update_or_create_publishers (Except.error msg) desired fail = [])
    ∧ (∀ (msg : String) (desired : List IdentifierItem)
        (fail : IdentOp → Bool),
      update_or_create_identifiers (Except.error msg) desired fail
        = (none, [])) :=
  ⟨fun _ _ _ => rfl, fun _ _ _ => rfl, fun _ _ _ => rfl, fun _ _ _ => rfl⟩

/-- Counterexample to claim C1: the identifier sync never removes.  Here the
existing identifier's key `"A"` is absent from the (empty) desired list, yet
the sync emits no operation at all — in fact `update_or_create_identifiers`
has no removal branch (`IdentOp` has only `create` and `update`). -/
theorem c1_identifier_sync_no_removal_cex :
    update_or_create_identifiers
        (Except.ok [⟨PyVal.pint 7, PyVal.pstr "A", some "x", false⟩]) []
        (fun _ => false)
      = (some { success := true, identifiers_to_update_in_cm := [] }, []) :=
  rfl

/-- Counterexample to claim C3: in the ordered track-sequencing variant
(`update_tracks`) there is no `try/except`: a failing `add_asset` raises and
aborts the loop.  Concretely, with current track `T1` and desired
`[T2 at 1, T1 at 2]`, a failure on `add T2` means the reposition of `T1` is
never attempted and the method raises instead of reporting success. -/
theorem c3_update_tracks_abort_cex :
    update_tracks [⟨PyVal.pstr "T1"⟩]
        [⟨PyVal.pstr "T2", 1⟩, ⟨PyVal.pstr "T1", 2⟩]
        (fun op => op == TrackOp.add (PyVal.pstr "T2") 1)
      = ([TrackOp.add (PyVal.pstr "T2") 1],
         some (TrackOp.add (PyVal.pstr "T2") 1))
    ∧ TrackOp.reposition (PyVal.pstr "T1") 2
        ∉ (update_tracks [⟨PyVal.pstr "T1"⟩]
            [⟨PyVal.pstr "T2", 1⟩, ⟨PyVal.pstr "T1", 2⟩]
            (fun op => op == TrackOp.add (PyVal.pstr "T2") 1)).1 := by
  refine ⟨by decide, by decide⟩

/-- Claim C3 as amended: in the contributor, instrument-performer, publisher
and identifier reconciliations every per-item failure is caught and the loop
continues — the attempted operations (and, for identifiers, the returned
result with its report-back list) are the same whatever subset of calls
fails, and the identifier sync always returns `success = true`.  In the
track-sequencing variant a failure aborts the loop instead (see the
counterexample). -/
theorem c3_reconcile_best_effort_amended :
    (∀ (fetched : Except String (List Contributor)) (credits : List Credit)
        (f g : ContribOp → Bool),
      (update_or_create_contributors fetched credits f).map Prod.fst
        = (update_or_create_contributors fetched credits g).map Prod.fst)
    ∧ (∀ (fetched : Except String (List InstrumentPerformer))
        (desired : List InstrumentCredit) (f g : InstrOp → Bool),
      (update_or_create_instrument_performers fetched desired f).map Prod.fst
        = (update_or_create_instrument_performers fetched desired g).map
            Prod.fst)
    ∧ (∀ (fetched : Except String (List PublisherEntry))
        (desired : List PublisherItem) (f g : PubOp → Bool),
      (update_or_create_publishers fetched desired f).map Prod.fst
        = (update_or_create_publishers fetched desired g).map Prod.fst)
    ∧ (∀ (fetched : Except String (List IdentifierEntry))
        (desired : List IdentifierItem) (f g : IdentOp → Bool),
      (update_or_create_identifiers fetched desired f).1
          = (update_or_create_identifiers fetched desired g).1
        ∧ (update_or_create_identifiers fetched desired f).2.map Prod.fst
          = (update_or_create_identifiers fetched desired g).2.map Prod.fst)
    ∧ (∀ (existing : List IdentifierEntry) (desired : List IdentifierItem)
        (fail : IdentOp → Bool),
      (update_or_create_identifiers (Except.ok existing) desired fail).1
        = some { success := true,
                 identifiers_to_update_in_cm :=
                   desired.filterMap (identReport existing) }) := by
  refine ⟨?_, ?_, ?_, ?_, ?_⟩
  · intro fetched credits f g
    cases fetched with
    | error msg => rfl
    | ok existing => rw [contrib_trace_ops, contrib_trace_ops]
  · intro fetched desired f g
    cases fetched with
    | error msg => rfl
    | ok existing => rw [instr_trace_ops, instr_trace_ops]
  · intro fetched desired f g
    cases fetched with
    | error msg => rfl
    | ok existing => rw [pub_trace_ops, pub_trace_ops]
  · intro fetched desired f g
    cases fetched with
    | error msg => exact ⟨rfl, rfl⟩
    | ok existing =>
      constructor
      · simp only [update_or_create_identifiers,
          (identGo_spec existing f desired).2,
          (identGo_spec existing g desired).2]
      · simp only [update_or_create_identifiers, identGo_ops]
  · intro existing desired fail
    simp only [update_or_create_identifiers,
      (identGo_spec existing fail desired).2]

/-- Claim C5: when the desired identifier asserts `newForIssuingOrg = true`
but the existing identifier under the same issuing-organisation key still
records `false`, the sync performs zero remote mutation for that item and
appends exactly the *existing* entry (not the desired one) to the
report-back list; the second conjunct shows the full function on the
one-item desired list. -/
theorem c5_identifier_report_back (existing : List IdentifierEntry)
    (fail : IdentOp → Bool) (d : IdentifierItem)
    (rest : List IdentifierItem) (e : IdentifierEntry)
    (hl : lookupLast existing (identItemKey d) = some e)
    (hd : d.newForIssuingOrg = true) (he : e.newForIssuingOrg = false) :
    update_or_create_identifiersGo existing fail (d :: rest)
      = ((update_or_create_identifiersGo existing fail rest).1,
         e :: (update_or_create_identifiersGo existing fail rest).2)
    ∧ update_or_create_identifiers (Except.ok existing) [d] fail
      = (some { success := true, identifiers_to_update_in_cm := [e] }, []) := by
  constructor
  · simp only [update_or_create_identifiersGo, hl]
    rw [if_pos ⟨hd, he⟩]
  · simp only [update_or_create_identifiers, update_or_create_identifiersGo,
      hl]
    rw [if_pos ⟨hd, he⟩]

theorem removal_count {α γ : Type} [DecidableEq α] [DecidableEq γ]
    (existing : List α) (p : α → Bool) (idf : α → PyVal) (remC : PyVal → γ)
    (hinj : Function.Injective remC)
    (hnd : (existing.map idf).Nodup) (e : α) (he : e ∈ existing)
    (hp : p e = true) :
    ((existing.filter p).map (fun x => remC (idf x))).count (remC (idf e))
      = 1 := by
  have h1 : ((existing.filter p).map idf).Nodup :=
    hnd.sublist (List.Sublist.map idf (List.filter_sublist existing))
  have h2 : ((existing.filter p).map (fun x => remC (idf x))).Nodup := by
    have hmm : (existing.filter p).map (fun x => remC (idf x))
        = ((existing.filter p).map idf).map remC := by
      rw [List.map_map]
      rfl
    rw [hmm]
    exact h1.map hinj
  have hmem : remC (idf e) ∈ (existing.filter p).map (fun x => remC (idf x)) :=
    List.mem_map_of_mem _ (List.mem_filter.2 ⟨he, hp⟩)
  exact List.count_eq_one_of_mem h2 hmem

theorem addmap_count_zero {β γ : Type} [DecidableEq γ] (l : List β)
    (addC : β → γ) (x : γ) (hne : ∀ b, addC b ≠ x) :
    (l.map addC).count x = 0 := by
  rw [List.count_eq_zero]
  intro hmem
  rcases List.mem_map.1 hmem with ⟨b, _, hb⟩
  exact hne b hb

theorem contains_eq_true_of_mem {β : Type} [BEq β] [LawfulBEq β]
    {l : List β} {x : β} (h : x ∈ l) : l.contains x = true :=
  List.elem_iff.2 h

theorem contains_eq_false_of_not_mem {β : Type} [BEq β] [LawfulBEq β]
    {l : List β} {x : β} (h : x ∉ l) : l.contains x = false := by
  cases hc : l.contains x
  · rfl
  · exact absurd (List.elem_iff.1 hc) h

/-- Claim C1 as amended: in the contributor, instrument-performer and
publisher syncs every existing item whose composite key is absent from the
desired keys is removed via the remove mutator exactly once (assuming
distinct remote ids, per the data model).  For publishers the removal phase
recomputes the existing item's key as `str()` of the whole nested
`publishing_house` dict, so the hypothesis is that this brace-delimited
string is absent from the desired keys — which, the desired keys being plain
id strings, always holds: the publisher sync removes *every* existing
publisher, matching or not.  The identifier sync performs no removals at all
(see the counterexample). -/
theorem c1_reconcile_deletion_amended :
    (∀ (existing : List Contributor) (credits : List Credit)
        (fail : ContribOp → Bool) (e : Contributor),
      (existing.map Contributor.id).Nodup → e ∈ existing →
      contribKey e ∉ credits.map creditKey →
      ((update_or_create_contributors (Except.ok existing) credits fail).map
          Prod.fst).count (ContribOp.remove e.id) = 1)
    ∧ (∀ (existing : List InstrumentPerformer)
        (desired : List InstrumentCredit) (fail : InstrOp → Bool)
        (e : InstrumentPerformer),
      (existing.map InstrumentPerformer.id).Nodup → e ∈ existing →
      instrPerformerKey e ∉ desired.map instrCreditKey →
      ((update_or_create_instrument_performers (Except.ok existing) desired
          fail).map Prod.fst).count (InstrOp.remove e.id) = 1)
    ∧ (∀ (existing : List PublisherEntry) (desired : List PublisherItem)
        (fail : PubOp → Bool) (e : PublisherEntry),
      (existing.map PublisherEntry.id).Nodup → e ∈ existing →
      strOfPubHouseObj e.publishingHouse
        ∉ desired.map (fun d => d.publishing_house.toStr) →
      ((update_or_create_publishers (Except.ok existing) desired fail).map
          Prod.fst).count (PubOp.remove e.id) = 1) := by
  refine ⟨?_, ?_, ?_⟩
  · intro existing credits fail e hnd he habs
    rw [contrib_trace_ops, contribOps, List.count_append]
    rw [addmap_count_zero _ ContribOp.add _
      (fun b h => ContribOp.noConfusion h)]
    rw [removal_count existing _ Contributor.id ContribOp.remove
      (fun a b hab => ContribOp.remove.inj hab) hnd e he
      (by rw [contains_eq_false_of_not_mem habs]; rfl)]
  · intro existing desired fail e hnd he habs
    rw [instr_trace_ops, instrOps, List.count_append]
    rw [addmap_count_zero _ InstrOp.add _ (fun b h => InstrOp.noConfusion h)]
    rw [removal_count existing _ InstrumentPerformer.id InstrOp.remove
      (fun a b hab => InstrOp.remove.inj hab) hnd e he
      (by rw [contains_eq_false_of_not_mem habs]; rfl)]
  · intro existing desired fail e hnd he hstr
    rw [pub_trace_ops, pubOps, List.count_append]
    rw [addmap_count_zero _ PubOp.add _ (fun b h => PubOp.noConfusion h)]
    rw [removal_count existing _ PublisherEntry.id PubOp.remove
      (fun a b hab => PubOp.remove.inj hab) hnd e he
      (by rw [contains_eq_false_of_not_mem hstr]; rfl)]

/-- Witness for C1 (amended).  Contributor part, at the spec's scenario:
existing keys `(A, X), (B, Y)`, desired `(A, X)` — the contributor with
absent key `(B, Y)` (id 2) is removed exactly once.  Publisher part, at a
*matching* publisher: the existing entry's publishing-house id `7` is
present in desired, yet the entry (remote id 3) is still removed, because
the removal-phase key `str(\x7b'id': 7\x7d)` is never a desired plain-id
string. -/
theorem c1_reconcile_deletion_amended_witness :
    (((update_or_create_contributors
        (Except.ok [⟨PyVal.pint 1, PyVal.pstr "A", "X"⟩,
                    ⟨PyVal.pint 2, PyVal.pstr "B", "Y"⟩])
        [⟨PyVal.pstr "A", "X"⟩] (fun _ => false)).map Prod.fst).count
      (ContribOp.remove (PyVal.pint 2)) = 1)
    ∧ (((update_or_create_publishers
        (Except.ok [⟨PyVal.pint 3, ⟨PyVal.pint 7⟩⟩])
        [⟨PyVal.pint 7⟩] (fun _ => false)).map Prod.fst).count
      (PubOp.remove (PyVal.pint 3)) = 1) :=
  ⟨c1_reconcile_deletion_amended.1
    [⟨PyVal.pint 1, PyVal.pstr "A", "X"⟩, ⟨PyVal.pint 2, PyVal.pstr "B", "Y"⟩]
    [⟨PyVal.pstr "A", "X"⟩] (fun _ => false)
    ⟨PyVal.pint 2, PyVal.pstr "B", "Y"⟩ (by decide) (by decide) (by decide),
   c1_reconcile_deletion_amended.2.2
    [⟨PyVal.pint 3, ⟨PyVal.pint 7⟩⟩] [⟨PyVal.pint 7⟩] (fun _ => false)
    ⟨PyVal.pint 3, ⟨PyVal.pint 7⟩⟩ (by decide) (by decide) (by decide)⟩

theorem lookupLast_eq_none_of_not_mem (existing : List IdentifierEntry)
    (k : String) (h : k ∉ existing.map identEntryKey) :
    lookupLast existing k = none := by
  rw [lookupLast]
  have hnil : existing.filter (fun e => identEntryKey e == k) = [] := by
    rw [List.filter_eq_nil_iff]
    intro e he hbeq
    exact h (List.mem_map.2 ⟨e, he, by simpa using hbeq⟩)
  rw [hnil]
  rfl

theorem identDecide_create_inv {existing : List IdentifierEntry}
    {d d' : IdentifierItem}
    (h : identDecide existing d = some (IdentOp.create d')) : d' = d := by
  rw [identDecide] at h
  split at h
  next e heq =>
    split_ifs at h <;>
      first
        | exact Option.noConfusion h
        | (simp only [Option.some.injEq] at h
           exact IdentOp.noConfusion h)
  next heq =>
    simp only [Option.some.injEq, IdentOp.create.injEq] at h
    exact h.symm

theorem ident_creates_count (existing : List IdentifierEntry) (k : String)
    (hnone : lookupLast existing k = none) (desired : List IdentifierItem) :
    ((desired.filterMap (identDecide existing)).filter
        (identIsCreateKey k)).length
      = (desired.filter (fun d => identItemKey d == k)).length := by
  induction desired with
  | nil => rfl
  | cons d rest ih =>
    rw [List.filterMap_cons, List.filter_cons]
    by_cases hk : identItemKey d = k
    · have hdec : identDecide existing d = some (IdentOp.create d) := by
        rw [identDecide, hk, hnone]
      rw [hdec]
      have hpred : identIsCreateKey k (IdentOp.create d) = true := by
        simp [identIsCreateKey, hk]
      rw [List.filter_cons, hpred, if_pos rfl,
        if_pos (by simpa using hk)]
      simp [ih]
    · have hkb : (identItemKey d == k) = false := by simpa using hk
      rw [hkb, if_neg (by simp)]
      cases hdec : identDecide existing d with
      | none => exact ih
      | some op =>
        have hpred : identIsCreateKey k op = false := by
          cases op with
          | create d2 =>
            have hd2 : d2 = d := identDecide_create_inv hdec
            subst hd2
            simp [identIsCreateKey, hk]
          | update i d2 => rfl
        rw [List.filter_cons, hpred]
        simp only [Bool.false_eq_true, if_false]
        exact ih

/-- Claim C10: when the desired list contains several items with the same
composite key and that key is absent from the existing items, the add (resp.
create) mutator is invoked once per duplicate — the existing-by-key lookup is
built once from the initial fetch and never updated during the loop, so a
later duplicate is not recognised as already existing.  Stated for the
contributor sync and the identifier sync: the number of emitted adds/creates
with key `k` equals the number of desired items with key `k`. -/
theorem c10_duplicate_desired_added_per_occurrence :
    (∀ (existing : List Contributor) (credits : List Credit)
        (fail : ContribOp → Bool) (k : String × String),
      k ∉ existing.map contribKey →
      (((update_or_create_contributors (Except.ok existing) credits fail).map
          Prod.fst).filter (contribIsAddKey k)).length
        = (credits.filter (fun cr => creditKey cr == k)).length)
    ∧ (∀ (existing : List IdentifierEntry) (desired : List IdentifierItem)
        (fail : IdentOp → Bool) (k : String),
      k ∉ existing.map identEntryKey →
      (((update_or_create_identifiers (Except.ok existing) desired fail).2.map
          Prod.fst).filter (identIsCreateKey k)).length
        = (desired.filter (fun d => identItemKey d == k)).length) := by
  constructor
  · intro existing credits fail k habs
    rw [contrib_trace_ops, contribOps, List.filter_append, List.length_append]
    have hrem : (((existing.filter
        (fun e => !((credits.map creditKey).contains (contribKey e)))).map
          (fun e => ContribOp.remove e.id)).filter (contribIsAddKey k)).length
        = 0 := by
      rw [List.filter_map]
      have hnil : (existing.filter
          (fun e => !((credits.map creditKey).contains (contribKey e)))).filter
            (contribIsAddKey k ∘ fun e => ContribOp.remove e.id) = [] := by
        rw [List.filter_eq_nil_iff]
        intro e _ hpe
        simp [contribIsAddKey] at hpe
      rw [hnil]
      rfl
    rw [hrem, Nat.add_zero, List.filter_map]
    have hpred : ∀ cr,
        (contribIsAddKey k ∘ ContribOp.add) cr = (creditKey cr == k) := by
      intro cr
      rfl
    have hflt : (credits.filter
          (fun cr => !((existing.map contribKey).contains (creditKey cr)))).filter
            (contribIsAddKey k ∘ ContribOp.add)
        = credits.filter (fun cr => creditKey cr == k) := by
      rw [List.filter_filter]
      apply List.filter_congr
      intro cr _
      rw [hpred cr]
      cases hkc : creditKey cr == k
      · rfl
      · have hkk : creditKey cr = k := by simpa using hkc
        rw [hkk, contains_eq_false_of_not_mem habs]
        rfl
    rw [hflt, List.length_map]
  · intro existing desired fail k habs
    have hnone := lookupLast_eq_none_of_not_mem existing k habs
    simp only [update_or_create_identifiers, identGo_ops]
    exact ident_creates_count existing k hnone desired

/-- Witness for C10: two desired credits with the same key `("P", "R")`,
absent from the (empty) existing list — the add mutator is invoked twice. -/
theorem c10_duplicate_desired_added_per_occurrence_witness :
    (((update_or_create_contributors (Except.ok ([] : List Contributor))
        [⟨PyVal.pstr "P", "R"⟩, ⟨PyVal.pstr "P", "R"⟩] (fun _ => false)).map
          Prod.fst).filter (contribIsAddKey ("P", "R"))).length
      = ([⟨PyVal.pstr "P", "R"⟩, (⟨PyVal.pstr "P", "R"⟩ : Credit)].filter
          (fun cr => creditKey cr == ("P", "R"))).length :=
  c10_duplicate_desired_added_per_occurrence.1 []
    [⟨PyVal.pstr "P", "R"⟩, ⟨PyVal.pstr "P", "R"⟩] (fun _ => false)
    ("P", "R") (by decide)

/-- Witness for C5: the spec scenario — existing
`{key: "A", newForOrg: false}`, desired `{key: "A", newForOrg: true}` —
yields zero remote calls and the one existing entry reported back. -/
theorem c5_identifier_report_back_witness :
    update_or_create_identifiers
        (Except.ok [⟨PyVal.pint 1, PyVal.pstr "A", some "x", false⟩])
        [⟨PyVal.pstr "A", some "x", true⟩] (fun _ => false)
      = (some { success := true,
                identifiers_to_update_in_cm :=
                  [⟨PyVal.pint 1, PyVal.pstr "A", some "x", false⟩] },
         []) :=
  (c5_identifier_report_back
    [⟨PyVal.pint 1, PyVal.pstr "A", some "x", false⟩] (fun _ => false)
    ⟨PyVal.pstr "A", some "x", true⟩ []
    ⟨PyVal.pint 1, PyVal.pstr "A", some "x", false⟩ (by decide) rfl rfl).2

/-- Counterexample to claim C9 as stated: with a desired list containing two
items under the same key `"A"` but different payloads (`"x"` vs `"y"`), the
first call creates both; the rebuilt lookup keeps the last (`"y"`), so the
second call — on a remote state that reflects exactly the first call's
operations — issues an `update`, not zero mutations. -/
theorem c9_reconcile_idempotence_cex :
    (update_or_create_identifiers
        (Except.ok (applyIdentOps []
          ((update_or_create_identifiers
              (Except.ok ([] : List IdentifierEntry))
              [⟨PyVal.pstr "A", some "x", false⟩,
               ⟨PyVal.pstr "A", some "y", false⟩]
              (fun _ => false)).2.map Prod.fst) 100))
        [⟨PyVal.pstr "A", some "x", false⟩,
         ⟨PyVal.pstr "A", some "y", false⟩]
        (fun _ => false)).2.map Prod.fst
      = [IdentOp.update (PyVal.pint 101)
          ⟨PyVal.pstr "A", some "x", false⟩] := by
  decide

theorem foldl_contrib_adds (adds : List Credit) :
    ∀ (l : List Contributor) (n : Nat),
      (adds.map ContribOp.add).foldl applyContribOp (l, n)
        = (l ++ materializeCredits n adds, n + adds.length) := by
  induction adds with
  | nil => intro l n; simp [materializeCredits]
  | cons cr rest ih =>
    intro l n
    rw [List.map_cons, List.foldl_cons]
    show (rest.map ContribOp.add).foldl applyContribOp
        (l ++ [{ id := PyVal.pint (Int.ofNat n), personId := cr.person,
                 role := cr.role }], n + 1)
      = (l ++ materializeCredits n (cr :: rest), n + (cr :: rest).length)
    rw [ih]
    simp [materializeCredits, List.append_assoc]
    omega

theorem foldl_contrib_removes (ids : List PyVal) :
    ∀ (l : List Contributor) (n : Nat),
      (ids.map ContribOp.remove).foldl applyContribOp (l, n)
        = (l.filter (fun e => !(ids.contains e.id)), n) := by
  induction ids with
  | nil => intro l n; simp
  | cons i ids ih =>
    intro l n
    rw [List.map_cons, List.foldl_cons]
    show (ids.map ContribOp.remove).foldl applyContribOp
        (l.filter (fun e => e.id != i), n)
      = (l.filter (fun e => !((i :: ids).contains e.id)), n)
    rw [ih]
    congr 1
    rw [List.filter_filter]
    apply List.filter_congr
    intro e _
    rw [List.contains_cons]
    cases he1 : e.id == i <;> cases he2 : ids.contains e.id <;>
      simp only [he1, he2, bne, Bool.not_true, Bool.not_false, Bool.false_and,
        Bool.true_and, Bool.and_false, Bool.and_true, Bool.false_or,
        Bool.true_or, Bool.or_false, Bool.or_true]

theorem materializeCredits_key (adds : List Credit) :
    ∀ n, (materializeCredits n adds).map contribKey = adds.map creditKey := by
  induction adds with
  | nil => intro n; rfl
  | cons cr rest ih =>
    intro n
    simp [materializeCredits, contribKey, creditKey, ih]

theorem materializeCredits_mem_id (adds : List Credit) :
    ∀ (n : Nat) (x : Contributor), x ∈ materializeCredits n adds →
      ∃ m, n ≤ m ∧ x.id = PyVal.pint (Int.ofNat m) := by
  induction adds with
  | nil =>
    intro n x hx
    simp [materializeCredits] at hx
  | cons cr rest ih =>
    intro n x hx
    rw [materializeCredits] at hx
    rcases List.mem_cons.1 hx with h | h
    · exact ⟨n, le_rfl, by rw [h]⟩
    · rcases ih (n + 1) x h with ⟨m, hm, hid⟩
      exact ⟨m, by omega, hid⟩

theorem contrib_second_sync_no_ops (existing : List Contributor)
    (credits : List Credit) (f g : ContribOp → Bool) (fresh0 : Nat)
    (hnd : (existing.map Contributor.id).Nodup)
    (hfresh : ∀ e ∈ existing, ∀ n : Nat, fresh0 ≤ n →
      e.id ≠ PyVal.pint (Int.ofNat n)) :
    update_or_create_contributors
        (Except.ok (applyContribOps existing
          ((update_or_create_contributors (Except.ok existing) credits
            f).map Prod.fst) fresh0))
        credits g
      = [] := by
  rw [contrib_trace_ops]
  set pabs : Credit → Bool :=
    fun cr => !((existing.map contribKey).contains (creditKey cr)) with hpabs
  set q : Contributor → Bool :=
    fun e => !((credits.map creditKey).contains (contribKey e)) with hq
  set adds : List Credit := credits.filter pabs with hadds
  set removeIds : List PyVal := (existing.filter q).map Contributor.id
    with hremoveIds
  have h1 : applyContribOps existing (contribOps existing credits) fresh0
      = (existing ++ materializeCredits fresh0 adds).filter
          (fun e => !(removeIds.contains e.id)) := by
    rw [applyContribOps, contribOps]
    rw [show (existing.filter q).map (fun e => ContribOp.remove e.id)
        = removeIds.map ContribOp.remove from by
      rw [hremoveIds, List.map_map]; rfl]
    rw [List.foldl_append, foldl_contrib_adds, foldl_contrib_removes]
  have hmatsfix : (materializeCredits fresh0 adds).filter
      (fun e => !(removeIds.contains e.id)) = materializeCredits fresh0 adds := by
    apply List.filter_eq_self.2
    intro x hx
    rcases materializeCredits_mem_id adds fresh0 x hx with ⟨m, hm, hid⟩
    cases hc : removeIds.contains x.id
    · rfl
    · exfalso
      have hmem : x.id ∈ removeIds := List.elem_iff.1 hc
      rcases List.mem_map.1 hmem with ⟨e, hef, heid⟩
      have hee : e ∈ existing := (List.mem_filter.1 hef).1
      exact hfresh e hee m hm (by rw [heid, hid])
  have hsurv : existing.filter (fun e => !(removeIds.contains e.id))
      = existing.filter
          (fun e => (credits.map creditKey).contains (contribKey e)) := by
    apply List.filter_congr
    intro e he
    cases hck : (credits.map creditKey).contains (contribKey e)
    · have hqe : q e = true := by rw [hq]; simp only [hck, Bool.not_false]
      have hmem : e.id ∈ removeIds :=
        List.mem_map_of_mem _ (List.mem_filter.2 ⟨he, hqe⟩)
      have hc : removeIds.contains e.id = true := List.elem_iff.2 hmem
      rw [hc]
      rfl
    · cases hc : removeIds.contains e.id
      · rfl
      · exfalso
        have hmem : e.id ∈ removeIds := List.elem_iff.1 hc
        rcases List.mem_map.1 hmem with ⟨x, hxf, hxid⟩
        obtain ⟨hxe, hqx⟩ := List.mem_filter.1 hxf
        have hxeq : x = e := List.inj_on_of_nodup_map hnd hxe he hxid
        rw [hxeq, hq] at hqx
        simp only [hck, Bool.not_true] at hqx
        exact Bool.noConfusion hqx
  have hremote : applyContribOps existing (contribOps existing credits) fresh0
      = existing.filter
          (fun e => (credits.map creditKey).contains (contribKey e))
        ++ materializeCredits fresh0 adds := by
    rw [h1, List.filter_append, hmatsfix, hsurv]
  rw [hremote]
  rw [update_or_create_contributors, contribAddPhase_eq, contribRemovePhase_eq]
  have haddnil : (credits.filter (fun cr =>
      !(((existing.filter
            (fun e => (credits.map creditKey).contains (contribKey e))
          ++ materializeCredits fresh0 adds).map contribKey).contains
        (creditKey cr)))) = [] := by
    rw [List.filter_eq_nil_iff]
    intro cr hcr hpred
    have hkeys : (existing.filter
          (fun e => (credits.map creditKey).contains (contribKey e))
        ++ materializeCredits fresh0 adds).map contribKey
        = (existing.filter
            (fun e => (credits.map creditKey).contains (contribKey e))).map
          contribKey ++ adds.map creditKey := by
      rw [List.map_append, materializeCredits_key]
    have hmem : creditKey cr ∈ (existing.filter
          (fun e => (credits.map creditKey).contains (contribKey e))
        ++ materializeCredits fresh0 adds).map contribKey := by
      rw [hkeys]
      rcases hc : (existing.map contribKey).contains (creditKey cr) with _ | _
      · apply List.mem_append_right
        apply List.mem_map_of_mem
        rw [hadds]
        refine List.mem_filter.2 ⟨hcr, ?_⟩
        rw [hpabs]
        simp only [hc, Bool.not_false]
      · apply List.mem_append_left
        have hmm : creditKey cr ∈ existing.map contribKey := List.elem_iff.1 hc
        rcases List.mem_map.1 hmm with ⟨e, hee, hekey⟩
        rw [← hekey]
        apply List.mem_map_of_mem
        refine List.mem_filter.2 ⟨hee, ?_⟩
        apply List.elem_iff.2
        rw [hekey]
        exact List.mem_map_of_mem _ hcr
    rw [contains_eq_true_of_mem hmem] at hpred
    simp at hpred
  have hremnil : ((existing.filter
        (fun e => (credits.map creditKey).contains (contribKey e))
      ++ materializeCredits fresh0 adds).filter (fun e =>
        !((credits.map creditKey).contains (contribKey e)))) = [] := by
    rw [List.filter_eq_nil_iff]
    intro x hx hpred
    rcases List.mem_append.1 hx with h | h
    · obtain ⟨_, hcx⟩ := List.mem_filter.1 h
      rw [hcx] at hpred
      simp at hpred
    · have hkx : contribKey x ∈ (materializeCredits fresh0 adds).map
          contribKey := List.mem_map_of_mem _ h
      rw [materializeCredits_key] at hkx
      rcases List.mem_map.1 hkx with ⟨cr, hcr, hck⟩
      have hcc : contribKey x ∈ credits.map creditKey := by
        rw [← hck]
        exact List.mem_map_of_mem _ ((List.mem_filter.1 hcr).1)
      rw [contains_eq_true_of_mem hcc] at hpred
      simp at hpred
  rw [haddnil, hremnil]
  rfl

theorem applyIdentUpdates_nil (l : List IdentifierEntry) :
    applyIdentUpdates l [] = l := rfl

theorem applyIdentUpdates_as_map (ops : List IdentOp) :
    ∀ l : List IdentifierEntry,
      applyIdentUpdates l ops = l.map (fun e => ops.foldl applyUpdTo e) := by
  induction ops with
  | nil =>
    intro l
    simp [applyIdentUpdates]
  | cons op rest ih =>
    intro l
    cases op with
    | create d =>
      show applyIdentUpdates l rest = _
      rw [ih]
      rfl
    | update i d =>
      show applyIdentUpdates (l.map (setIdentPayload i d)) rest = _
      rw [ih, List.map_map]
      rfl

theorem applyIdentUpdates_append (ops : List IdentOp) :
    ∀ a b : List IdentifierEntry,
      applyIdentUpdates (a ++ b) ops
        = applyIdentUpdates a ops ++ applyIdentUpdates b ops := by
  induction ops with
  | nil => intro a b; rfl
  | cons op rest ih =>
    intro a b
    cases op with
    | create d => exact ih a b
    | update i d =>
      show applyIdentUpdates ((a ++ b).map (setIdentPayload i d)) rest = _
      rw [List.map_append, ih]
      rfl

theorem applyIdentUpdates_singleton_fixed (ops : List IdentOp)
    (x : IdentifierEntry)
    (h : ∀ i d, IdentOp.update i d ∈ ops → x.id ≠ i) :
    applyIdentUpdates [x] ops = [x] := by
  induction ops with
  | nil => rfl
  | cons op rest ih =>
    cases op with
    | create d =>
      exact ih (fun i d hm => h i d (List.mem_cons_of_mem _ hm))
    | update i d =>
      show applyIdentUpdates ([x].map (setIdentPayload i d)) rest = [x]
      have hx : setIdentPayload i d x = x := by
        rw [setIdentPayload, if_neg (h i d (List.mem_cons_self _ _))]
      rw [List.map_cons, List.map_nil, hx]
      exact ih (fun i d hm => h i d (List.mem_cons_of_mem _ hm))

theorem applyIdentOps_decomp (ops : List IdentOp) :
    ∀ (l : List IdentifierEntry) (n : Nat),
      (∀ i d, IdentOp.update i d ∈ ops → ∀ m, n ≤ m →
        i ≠ PyVal.pint (Int.ofNat m)) →
      (ops.foldl applyIdentOp (l, n)).1
        = applyIdentUpdates l ops ++ materializeItems n (identCreates ops) := by
  induction ops with
  | nil =>
    intro l n _
    simp [applyIdentUpdates, identCreates, materializeItems]
  | cons op rest ih =>
    intro l n hdisj
    cases op with
    | create d =>
      rw [List.foldl_cons]
      show (rest.foldl applyIdentOp
          (l ++ [{ id := PyVal.pint (Int.ofNat n),
                   issuingOrgId := d.issuingOrganization,
                   identifier := d.identifier,
                   newForIssuingOrg := d.newForIssuingOrg }], n + 1)).1 = _
      rw [ih _ (n + 1)
        (fun i dd hm m hnm =>
          hdisj i dd (List.mem_cons_of_mem _ hm) m (by omega))]
      rw [applyIdentUpdates_append]
      rw [applyIdentUpdates_singleton_fixed rest _
        (fun i dd hm hxi => hdisj i dd (List.mem_cons_of_mem _ hm) n le_rfl
          hxi.symm)]
      show _ = applyIdentUpdates l rest
        ++ materializeItems n (d :: identCreates rest)
      rw [materializeItems, List.append_assoc]
      rfl
    | update i d =>
      rw [List.foldl_cons]
      show (rest.foldl applyIdentOp (l.map (setIdentPayload i d), n)).1 = _
      rw [ih _ n (fun i dd hm m hnm =>
        hdisj i dd (List.mem_cons_of_mem _ hm) m hnm)]
      rfl

theorem foldl_applyUpdTo_key (ops : List IdentOp) :
    ∀ e : IdentifierEntry,
      (ops.foldl applyUpdTo e).id = e.id
      ∧ identEntryKey (ops.foldl applyUpdTo e) = identEntryKey e := by
  induction ops with
  | nil => intro e; exact ⟨rfl, rfl⟩
  | cons op rest ih =>
    intro e
    rw [List.foldl_cons]
    have hstep1 : (applyUpdTo e op).id = e.id := by
      cases op with
      | create d => rfl
      | update i d =>
        show (setIdentPayload i d e).id = e.id
        rw [setIdentPayload]
        split
        · rfl
        · rfl
    have hstep2 : identEntryKey (applyUpdTo e op) = identEntryKey e := by
      cases op with
      | create d => rfl
      | update i d =>
        show identEntryKey (setIdentPayload i d e) = identEntryKey e
        rw [setIdentPayload]
        split
        · rfl
        · rfl
    obtain ⟨h1, h2⟩ := ih (applyUpdTo e op)
    exact ⟨h1.trans hstep1, h2.trans hstep2⟩

theorem foldl_applyUpdTo_fixed (ops : List IdentOp) (e : IdentifierEntry)
    (h : ∀ op ∈ ops, applyUpdTo e op = e) :
    ops.foldl applyUpdTo e = e := by
  induction ops with
  | nil => rfl
  | cons op rest ih =>
    rw [List.foldl_cons, h op (List.mem_cons_self _ _)]
    exact ih (fun op2 hm => h op2 (List.mem_cons_of_mem _ hm))

theorem setIdentPayload_of_eq (i : PyVal) (d : IdentifierItem)
    (e : IdentifierEntry) (h1 : e.identifier = d.identifier)
    (h2 : e.newForIssuingOrg = d.newForIssuingOrg) :
    setIdentPayload i d e = e := by
  rw [setIdentPayload]
  split
  · rw [← h1, ← h2]
  · rfl

theorem foldl_upd_payload (ops : List IdentOp) :
    ∀ (e : IdentifierEntry) (d : IdentifierItem),
      (∀ i dd, IdentOp.update i dd ∈ ops → i = e.id → dd = d) →
      IdentOp.update e.id d ∈ ops →
      ops.foldl applyUpdTo e
        = { e with identifier := d.identifier,
                   newForIssuingOrg := d.newForIssuingOrg } := by
  induction ops with
  | nil =>
    intro e d _ hmem
    simp at hmem
  | cons op rest ih =>
    intro e d honly hmem
    rw [List.foldl_cons]
    cases op with
    | create dd =>
      have hmem2 : IdentOp.update e.id d ∈ rest := by
        rcases List.mem_cons.1 hmem with h | h
        · exact IdentOp.noConfusion h
        · exact h
      exact ih e d
        (fun i dd2 hm hi => honly i dd2 (List.mem_cons_of_mem _ hm) hi) hmem2
    | update i dd =>
      by_cases hi : i = e.id
      · have hdd : dd = d :=
          honly i dd (List.mem_cons_self _ _) hi
        subst hdd
        have hstep : applyUpdTo e (IdentOp.update i dd)
            = { e with identifier := dd.identifier,
                       newForIssuingOrg := dd.newForIssuingOrg } := by
          show setIdentPayload i dd e = _
          rw [setIdentPayload, if_pos hi.symm]
        rw [hstep]
        apply foldl_applyUpdTo_fixed
        intro op2 hm
        cases op2 with
        | create d2 => rfl
        | update i2 d2 =>
          show setIdentPayload i2 d2 _ = _
          by_cases hi2 : i2 = e.id
          · have hd2 : d2 = dd :=
              honly i2 d2 (List.mem_cons_of_mem _ hm) hi2
            subst hd2
            exact setIdentPayload_of_eq _ _ _ rfl rfl
          · rw [setIdentPayload, if_neg (fun h => hi2 h.symm)]
      · have hstep : applyUpdTo e (IdentOp.update i dd) = e := by
          show setIdentPayload i dd e = e
          rw [setIdentPayload, if_neg (fun h => hi h.symm)]
        rw [hstep]
        have hmem2 : IdentOp.update e.id d ∈ rest := by
          rcases List.mem_cons.1 hmem with h | h
          · exfalso
            have := (IdentOp.update.inj h.symm).1
            exact hi this
          · exact h
        exact ih e d
          (fun i2 dd2 hm h2 => honly i2 dd2 (List.mem_cons_of_mem _ hm) h2)
          hmem2

theorem lookupLast_some {existing : List IdentifierEntry} {k : String}
    {e : IdentifierEntry} (h : lookupLast existing k = some e) :
    e ∈ existing ∧ identEntryKey e = k := by
  rw [lookupLast] at h
  have hm : e ∈ existing.filter (fun x => identEntryKey x == k) :=
    List.mem_of_mem_getLast? h
  obtain ⟨h1, h2⟩ := List.mem_filter.1 hm
  exact ⟨h1, by simpa using h2⟩

theorem identDecide_update_inv {existing : List IdentifierEntry}
    {d : IdentifierItem} {i : PyVal} {dd : IdentifierItem}
    (h : identDecide existing d = some (IdentOp.update i dd)) :
    dd = d
    ∧ ∃ e, lookupLast existing (identItemKey d) = some e ∧ i = e.id := by
  rw [identDecide] at h
  split at h
  next e heq =>
    split_ifs at h <;>
      first
        | exact Option.noConfusion h
        | (simp only [Option.some.injEq, IdentOp.update.injEq] at h
           exact ⟨h.2.symm, e, heq, h.1.symm⟩)
  next heq =>
    simp only [Option.some.injEq] at h
    exact IdentOp.noConfusion h

theorem identDecide_create_lookup {existing : List IdentifierEntry}
    {d dd : IdentifierItem}
    (h : identDecide existing d = some (IdentOp.create dd)) :
    lookupLast existing (identItemKey d) = none := by
  rw [identDecide] at h
  split at h
  next e heq =>
    split_ifs at h <;>
      first
        | exact Option.noConfusion h
        | (simp only [Option.some.injEq] at h
           exact IdentOp.noConfusion h)
  next heq => exact heq

theorem identCreates_of_desired (existing : List IdentifierEntry) :
    ∀ desired : List IdentifierItem,
      identCreates (desired.filterMap (identDecide existing))
        = desired.filter
            (fun d => (lookupLast existing (identItemKey d)).isNone) := by
  intro desired
  induction desired with
  | nil => rfl
  | cons d rest ih =>
    rw [List.filterMap_cons, List.filter_cons]
    cases hl : lookupLast existing (identItemKey d) with
    | none =>
      have hdec : identDecide existing d = some (IdentOp.create d) := by
        rw [identDecide, hl]
      rw [hdec]
      simp only [hl, Option.isNone_none]
      show d :: identCreates (rest.filterMap (identDecide existing)) = _
      rw [ih, if_pos trivial]
    | some e =>
      simp only [hl, Option.isNone_some, Bool.false_eq_true, if_false]
      cases hdec : identDecide existing d with
      | none => exact ih
      | some op =>
        cases op with
        | create dd =>
          exfalso
          rw [identDecide_create_lookup hdec] at hl
          exact Option.noConfusion hl
        | update i dd =>
          show identCreates (rest.filterMap (identDecide existing)) = _
          exact ih

theorem materializeItems_key (l : List IdentifierItem) :
    ∀ n, (materializeItems n l).map identEntryKey = l.map identItemKey := by
  induction l with
  | nil => intro n; rfl
  | cons d rest ih =>
    intro n
    simp [materializeItems, identEntryKey, identItemKey, ih]

theorem materializeItems_filter_pair (k : String) (l : List IdentifierItem) :
    ∀ n, ((materializeItems n l).filter
        (fun e => identEntryKey e == k)).map
          (fun e => (e.identifier, e.newForIssuingOrg))
      = (l.filter (fun d => identItemKey d == k)).map
          (fun d => (d.identifier, d.newForIssuingOrg)) := by
  induction l with
  | nil => intro n; rfl
  | cons d rest ih =>
    intro n
    rw [materializeItems, List.filter_cons, List.filter_cons]
    have hkey : identEntryKey ({ id := PyVal.pint (Int.ofNat n),
                                 issuingOrgId := d.issuingOrganization,
                                 identifier := d.identifier,
                                 newForIssuingOrg := d.newForIssuingOrg }
        : IdentifierEntry)
      = identItemKey d := rfl
    rw [hkey]
    cases hc : identItemKey d == k
    · simp only [hc, Bool.false_eq_true, if_false]
      exact ih (n + 1)
    · simp only [hc, eq_self_iff_true, if_true]
      rw [List.map_cons, List.map_cons, ih (n + 1)]

theorem filter_key_unique {α β : Type} [BEq β] [LawfulBEq β] (keyf : α → β) :
    ∀ (l : List α) (d : α), (l.map keyf).Nodup → d ∈ l →
      l.filter (fun x => keyf x == keyf d) = [d] := by
  intro l
  induction l with
  | nil => intro d _ hd; simp at hd
  | cons x rest ih =>
    intro d hnd hd
    have hnodup := hnd
    rw [List.map_cons, List.nodup_cons] at hnodup
    obtain ⟨hnotmem, hnd2⟩ := hnodup
    rw [List.filter_cons]
    cases hc : keyf x == keyf d
    · have hdr : d ∈ rest := by
        rcases List.mem_cons.1 hd with h | h
        · exfalso
          rw [h] at hc
          simp at hc
        · exact h
      simp only [Bool.false_eq_true, if_false]
      exact ih d hnd2 hdr
    · have hxk : keyf x = keyf d := by simpa using hc
      have hxd : x = d := by
        rcases List.mem_cons.1 hd with h | h
        · exact h.symm
        · exfalso
          apply hnotmem
          rw [hxk]
          exact List.mem_map_of_mem _ h
      simp only [hc, eq_self_iff_true, if_true]
      rw [hxd]
      have hnil : rest.filter (fun y => keyf y == keyf d) = [] := by
        rw [List.filter_eq_nil_iff]
        intro y hy hyk
        apply hnotmem
        rw [hxk, ← (by simpa using hyk : keyf y = keyf d)]
        exact List.mem_map_of_mem _ hy
      rw [hnil]

theorem lookupLast_map_keyPreserving (l : List IdentifierEntry)
    (F : IdentifierEntry → IdentifierEntry)
    (hF : ∀ e, identEntryKey (F e) = identEntryKey e) (k : String) :
    lookupLast (l.map F) k = (lookupLast l k).map F := by
  rw [lookupLast, lookupLast, List.filter_map]
  rw [show ((fun e => identEntryKey e == k) ∘ F)
      = (fun e => identEntryKey e == k) from funext (fun e => by
    simp [Function.comp, hF e])]
  rw [List.getLast?_map]

theorem lookupLast_append (a b : List IdentifierEntry) (k : String) :
    lookupLast (a ++ b) k = (lookupLast b k).or (lookupLast a k) := by
  rw [lookupLast, lookupLast, lookupLast, List.filter_append,
    List.getLast?_append]

theorem ident_second_sync_no_ops (existing : List IdentifierEntry)
    (desired : List IdentifierItem) (f g : IdentOp → Bool) (fresh0 : Nat)
    (hnd : (existing.map IdentifierEntry.id).Nodup)
    (hkeys : (desired.map identItemKey).Nodup)
    (hfresh : ∀ e ∈ existing, ∀ n : Nat, fresh0 ≤ n →
      e.id ≠ PyVal.pint (Int.ofNat n)) :
    (update_or_create_identifiers
        (Except.ok (applyIdentOps existing
          ((update_or_create_identifiers (Except.ok existing) desired
            f).2.map Prod.fst) fresh0))
        desired g).2
      = [] := by
  have hops1 : (update_or_create_identifiers (Except.ok existing) desired
        f).2.map Prod.fst
      = desired.filterMap (identDecide existing) := identGo_ops existing f desired
  rw [hops1]
  have hupdtarget : ∀ i dd,
      IdentOp.update i dd ∈ desired.filterMap (identDecide existing) →
      ∃ e2, e2 ∈ existing ∧ i = e2.id := by
    intro i dd hm
    rcases List.mem_filterMap.1 hm with ⟨d2, _, hdec2⟩
    rcases identDecide_update_inv hdec2 with ⟨_, e2, hl2, hi2⟩
    exact ⟨e2, (lookupLast_some hl2).1, hi2⟩
  have hdisj : ∀ i dd,
      IdentOp.update i dd ∈ desired.filterMap (identDecide existing) →
      ∀ m, fresh0 ≤ m → i ≠ PyVal.pint (Int.ofNat m) := by
    intro i dd hm m hfm
    rcases hupdtarget i dd hm with ⟨e2, he2, hi2⟩
    rw [hi2]
    exact hfresh e2 he2 m hfm
  have hremote : applyIdentOps existing
        (desired.filterMap (identDecide existing)) fresh0
      = existing.map
          (fun e => (desired.filterMap (identDecide existing)).foldl
            applyUpdTo e)
        ++ materializeItems fresh0
            (identCreates (desired.filterMap (identDecide existing))) := by
    rw [applyIdentOps, applyIdentOps_decomp _ existing fresh0 hdisj,
      applyIdentUpdates_as_map]
  rw [hremote]
  show (update_or_create_identifiersGo _ g desired).1 = []
  rw [(identGo_spec _ g desired).1]
  apply List.filterMap_eq_nil_iff.mpr
  intro d hd
  apply Option.map_eq_none'.mpr
  have hFkey : ∀ e, identEntryKey
      ((desired.filterMap (identDecide existing)).foldl applyUpdTo e)
      = identEntryKey e :=
    fun e => (foldl_applyUpdTo_key _ e).2
  have hlookup2 : lookupLast
      (existing.map (fun e =>
          (desired.filterMap (identDecide existing)).foldl applyUpdTo e)
        ++ materializeItems fresh0
            (identCreates (desired.filterMap (identDecide existing))))
      (identItemKey d)
      = (lookupLast (materializeItems fresh0
            (identCreates (desired.filterMap (identDecide existing))))
          (identItemKey d)).or
        ((lookupLast existing (identItemKey d)).map
          (fun e => (desired.filterMap (identDecide existing)).foldl
            applyUpdTo e)) := by
    rw [lookupLast_append, lookupLast_map_keyPreserving existing _ hFkey]
  cases hl : lookupLast existing (identItemKey d) with
  | none =>
    have hdin : d ∈ identCreates (desired.filterMap (identDecide existing)) := by
      rw [identCreates_of_desired]
      refine List.mem_filter.2 ⟨hd, ?_⟩
      rw [hl]
      rfl
    have hcnd : ((identCreates (desired.filterMap
          (identDecide existing))).map identItemKey).Nodup := by
      rw [identCreates_of_desired]
      exact hkeys.sublist (List.Sublist.map identItemKey
        (List.filter_sublist desired))
    have huniq : (identCreates (desired.filterMap
          (identDecide existing))).filter
            (fun d2 => identItemKey d2 == identItemKey d) = [d] :=
      filter_key_unique identItemKey _ d hcnd hdin
    have hpair := materializeItems_filter_pair (identItemKey d)
      (identCreates (desired.filterMap (identDecide existing))) fresh0
    rw [huniq] at hpair
    obtain ⟨e2, hfl, hid2, hnf2⟩ :
        ∃ e2, (materializeItems fresh0
            (identCreates (desired.filterMap (identDecide existing)))).filter
              (fun e => identEntryKey e == identItemKey d) = [e2]
          ∧ e2.identifier = d.identifier
          ∧ e2.newForIssuingOrg = d.newForIssuingOrg := by
      cases hfl : (materializeItems fresh0
          (identCreates (desired.filterMap (identDecide existing)))).filter
            (fun e => identEntryKey e == identItemKey d) with
      | nil =>
        rw [hfl] at hpair
        exact absurd hpair (by simp)
      | cons e2 tl =>
        cases tl with
        | nil =>
          rw [hfl] at hpair
          simp only [List.map_cons, List.map_nil, List.cons.injEq,
            Prod.mk.injEq] at hpair
          exact ⟨e2, rfl, hpair.1.1, hpair.1.2⟩
        | cons e3 tl2 =>
          rw [hfl] at hpair
          exact absurd hpair (by simp)
    have hlk2 : lookupLast
        (existing.map (fun e =>
            (desired.filterMap (identDecide existing)).foldl applyUpdTo e)
          ++ materializeItems fresh0
              (identCreates (desired.filterMap (identDecide existing))))
        (identItemKey d) = some e2 := by
      rw [hlookup2, hl]
      rw [show lookupLast (materializeItems fresh0
            (identCreates (desired.filterMap (identDecide existing))))
          (identItemKey d) = some e2 from by rw [lookupLast, hfl]; rfl]
      rfl
    rw [identDecide, hlk2]
    show (if d.newForIssuingOrg = true ∧ e2.newForIssuingOrg = false then
        none
      else if pyOrNone d.identifier ≠ pyOrNone e2.identifier then
        some (IdentOp.update e2.id d)
      else none) = none
    rw [if_neg ?flagA, if_neg ?diffA]
    case flagA =>
      rintro ⟨h1, h2⟩
      rw [hnf2, h1] at h2
      exact Bool.noConfusion h2
    case diffA =>
      rw [hid2]
      exact fun h => h rfl
  | some e =>
    obtain ⟨heMem, heKey⟩ := lookupLast_some hl
    have htargetd : ∀ i dd,
        IdentOp.update i dd ∈ desired.filterMap (identDecide existing) →
        i = e.id → identDecide existing d = some (IdentOp.update i dd) := by
      intro i dd hm hie
      rcases List.mem_filterMap.1 hm with ⟨d2, hd2, hdec2⟩
      rcases identDecide_update_inv hdec2 with ⟨_, e2, hl2, hi2⟩
      obtain ⟨he2Mem, he2Key⟩ := lookupLast_some hl2
      have he2e : e2 = e :=
        List.inj_on_of_nodup_map hnd he2Mem heMem (by rw [← hi2, hie])
      have hk2 : identItemKey d2 = identItemKey d := by
        rw [← he2Key, he2e, heKey]
      have hd2d : d2 = d := List.inj_on_of_nodup_map hkeys hd2 hd hk2
      rw [← hd2d]
      exact hdec2
    have hcreatesnil : (materializeItems fresh0
        (identCreates (desired.filterMap (identDecide existing)))).filter
          (fun x => identEntryKey x == identItemKey d) = [] := by
      rw [List.filter_eq_nil_iff]
      intro x hx hxk
      have hxkm : identEntryKey x ∈ (materializeItems fresh0
          (identCreates (desired.filterMap
            (identDecide existing)))).map identEntryKey :=
        List.mem_map_of_mem _ hx
      rw [materializeItems_key] at hxkm
      rcases List.mem_map.1 hxkm with ⟨d2, hd2c, hd2k⟩
      rw [identCreates_of_desired] at hd2c
      obtain ⟨hd2mem, hd2none⟩ := List.mem_filter.1 hd2c
      have hk2 : identItemKey d2 = identItemKey d := by
        rw [hd2k]
        simpa using hxk
      have hd2d : d2 = d := List.inj_on_of_nodup_map hkeys hd2mem hd hk2
      rw [hd2d, hl] at hd2none
      exact Bool.noConfusion hd2none
    have hlk2 : lookupLast
        (existing.map (fun e2 =>
            (desired.filterMap (identDecide existing)).foldl applyUpdTo e2)
          ++ materializeItems fresh0
              (identCreates (desired.filterMap (identDecide existing))))
        (identItemKey d)
        = some ((desired.filterMap (identDecide existing)).foldl
            applyUpdTo e) := by
      rw [hlookup2, hl]
      rw [show lookupLast (materializeItems fresh0
            (identCreates (desired.filterMap (identDecide existing))))
          (identItemKey d) = none from by rw [lookupLast, hcreatesnil]; rfl]
      rfl
    by_cases hflag : d.newForIssuingOrg = true ∧ e.newForIssuingOrg = false
    · have hdecd : identDecide existing d = none := by
        rw [identDecide, hl]
        show (if d.newForIssuingOrg = true ∧ e.newForIssuingOrg = false then
            none
          else if pyOrNone d.identifier ≠ pyOrNone e.identifier then
            some (IdentOp.update e.id d)
          else none) = none
        rw [if_pos hflag]
      have hFe : (desired.filterMap (identDecide existing)).foldl
          applyUpdTo e = e := by
        apply foldl_applyUpdTo_fixed
        intro op hop
        cases op with
        | create d2 => rfl
        | update i d2 =>
          show setIdentPayload i d2 e = e
          rw [setIdentPayload, if_neg ?hne]
          case hne =>
            intro hei
            have := htargetd i d2 hop hei.symm
            rw [hdecd] at this
            exact Option.noConfusion this
      rw [identDecide, hlk2, hFe]
      show (if d.newForIssuingOrg = true ∧ e.newForIssuingOrg = false then
          none
        else if pyOrNone d.identifier ≠ pyOrNone e.identifier then
          some (IdentOp.update e.id d)
        else none) = none
      rw [if_pos hflag]
    · by_cases hdiff : pyOrNone d.identifier ≠ pyOrNone e.identifier
      · have hdecd : identDecide existing d
            = some (IdentOp.update e.id d) := by
          rw [identDecide, hl]
          show (if d.newForIssuingOrg = true ∧ e.newForIssuingOrg = false then
            none
          else if pyOrNone d.identifier ≠ pyOrNone e.identifier then
            some (IdentOp.update e.id d)
          else none) = some (IdentOp.update e.id d)
          rw [if_neg hflag, if_pos hdiff]
        have hmem : IdentOp.update e.id d
            ∈ desired.filterMap (identDecide existing) :=
          List.mem_filterMap.2 ⟨d, hd, hdecd⟩
        have honly : ∀ i dd,
            IdentOp.update i dd ∈ desired.filterMap (identDecide existing) →
            i = e.id → dd = d := by
          intro i dd hm hie
          have := htargetd i dd hm hie
          rw [hdecd] at this
          simp only [Option.some.injEq, IdentOp.update.injEq] at this
          exact this.2.symm
        have hFe := foldl_upd_payload
          (desired.filterMap (identDecide existing)) e d honly hmem
        rw [identDecide, hlk2, hFe]
        show (if d.newForIssuingOrg = true
              ∧ d.newForIssuingOrg = false then none
          else if pyOrNone d.identifier ≠ pyOrNone d.identifier then
            some _
          else none) = none
        rw [if_neg ?flagB, if_neg ?diffB]
        case flagB =>
          rintro ⟨h1, h2⟩
          rw [h1] at h2
          exact Bool.noConfusion h2
        case diffB => exact fun h => h rfl
      · have hdecd : identDecide existing d = none := by
          rw [identDecide, hl]
          show (if d.newForIssuingOrg = true ∧ e.newForIssuingOrg = false then
            none
          else if pyOrNone d.identifier ≠ pyOrNone e.identifier then
            some (IdentOp.update e.id d)
          else none) = none
          rw [if_neg hflag, if_neg hdiff]
        have hFe : (desired.filterMap (identDecide existing)).foldl
            applyUpdTo e = e := by
          apply foldl_applyUpdTo_fixed
          intro op hop
          cases op with
          | create d2 => rfl
          | update i d2 =>
            show setIdentPayload i d2 e = e
            rw [setIdentPayload, if_neg ?hne2]
            case hne2 =>
              intro hei
              have := htargetd i d2 hop hei.symm
              rw [hdecd] at this
              exact Option.noConfusion this
        rw [identDecide, hlk2, hFe]
        show (if d.newForIssuingOrg = true ∧ e.newForIssuingOrg = false then
            none
          else if pyOrNone d.identifier ≠ pyOrNone e.identifier then
            some (IdentOp.update e.id d)
          else none) = none
        rw [if_neg hflag, if_neg hdiff]

/-- Claim C9 as amended: calling a sync twice with the same desired list,
where the remote state after the first call reflects exactly the operations
that call applied (fresh server ids for created records, distinct remote
ids per the data model), yields zero add/update/remove calls on the second
invocation — for the contributor sync unconditionally, and for the
identifier sync provided no two desired items share a composite key (with
duplicate keys of different payloads the second call issues an update, see
the counterexample). -/
theorem c9_reconcile_idempotence_amended :
    (∀ (existing : List Contributor) (credits : List Credit)
        (f g : ContribOp → Bool) (fresh0 : Nat),
      (existing.map Contributor.id).Nodup →
      (∀ e ∈ existing, ∀ n : Nat, fresh0 ≤ n →
        e.id ≠ PyVal.pint (Int.ofNat n)) →
      update_or_create_contributors
          (Except.ok (applyContribOps existing
            ((update_or_create_contributors (Except.ok existing) credits
              f).map Prod.fst) fresh0)) credits g
        = [])
    ∧ (∀ (existing : List IdentifierEntry) (desired : List IdentifierItem)
        (f g : IdentOp → Bool) (fresh0 : Nat),
      (existing.map IdentifierEntry.id).Nodup →
      (desired.map identItemKey).Nodup →
      (∀ e ∈ existing, ∀ n : Nat, fresh0 ≤ n →
        e.id ≠ PyVal.pint (Int.ofNat n)) →
      (update_or_create_identifiers
          (Except.ok (applyIdentOps existing
            ((update_or_create_identifiers (Except.ok existing) desired
              f).2.map Prod.fst) fresh0)) desired g).2
        = []) :=
  ⟨fun existing credits f g fresh0 hnd hfresh =>
    contrib_second_sync_no_ops existing credits f g fresh0 hnd hfresh,
   fun existing desired f g fresh0 hnd hkeys hfresh =>
    ident_second_sync_no_ops existing desired f g fresh0 hnd hkeys hfresh⟩

/-- Witness for C9 (amended): one existing identifier under key `"A"`, a
desired list updating `"A"` and creating `"B"` — the second invocation on
the post-state issues no remote calls. -/
theorem c9_reconcile_idempotence_amended_witness :
    (update_or_create_identifiers
        (Except.ok (applyIdentOps
          [⟨PyVal.pint 1, PyVal.pstr "A", some "x", false⟩]
          ((update_or_create_identifiers
              (Except.ok [⟨PyVal.pint 1, PyVal.pstr "A", some "x", false⟩])
              [⟨PyVal.pstr "A", some "y", false⟩,
               ⟨PyVal.pstr "B", some "z", true⟩]
              (fun _ => false)).2.map Prod.fst) 50))
        [⟨PyVal.pstr "A", some "y", false⟩, ⟨PyVal.pstr "B", some "z", true⟩]
        (fun _ => false)).2
      = [] :=
  c9_reconcile_idempotence_amended.2
    [⟨PyVal.pint 1, PyVal.pstr "A", some "x", false⟩]
    [⟨PyVal.pstr "A", some "y", false⟩, ⟨PyVal.pstr "B", some "z", true⟩]
    (fun _ => false) (fun _ => false) 50 (by decide) (by decide)
    (by
      intro e he n hn
      simp only [List.mem_singleton] at he
      subst he
      intro hcontra
      simp only [PyVal.pint.injEq] at hcontra
      rw [show Int.ofNat n = (n : Int) from rfl] at hcontra
      omega)

end Fuga

